import Mathlib

/-!
# segment-proxy: the director and the response transform of `main.go`

A shallow embedding of `singleJoiningSlash`, of the director and the
`ModifyResponse` hook built by `NewSegmentReverseProxy`, and of `rewriteJs`,
together with the parts of the Go standard library they call
(`strings.HasPrefix`, `strings.HasSuffix`, `strings.Replace`, `bytes.Replace`,
`strconv.Itoa`, `(*url.URL).String`, `http.Header.Set`).

A Go `string` or `[]byte` is a sequence of bytes.  It is represented by a
`List Char`, one element per byte (the element's code is the byte's value); all
literals of the program are ASCII.  Every theorem below is proved for arbitrary
lists, hence in particular for byte sequences.
-/

namespace SegmentProxy

/-- A Go string or byte slice: one list element per byte. -/
abbrev Str := List Char

/-! ## `strings` / `bytes` -/

/-- Go `strings.HasPrefix(s, prefix)`. -/
def HasPrefix (s pre : Str) : Bool := pre.isPrefixOf s

/-- Go `strings.HasSuffix(s, suffix)`. -/
def HasSuffix (s suf : Str) : Bool := suf.isSuffixOf s

/-- Go `strings.Index(s, substr)`: the index of the first occurrence of `substr`
in `s`; `none` stands for Go's `-1`. -/
def Index : Str → Str → Option Nat
  | [], substr => if substr.isEmpty then some 0 else none
  | c :: s, substr =>
    if substr.isPrefixOf (c :: s) then some 0 else (Index s substr).map (· + 1)

/-- The loop of Go `strings.Count(s, substr)` for a non-empty `substr`:
`for { i := Index(s, substr); if i == -1 { return n }; n++; s = s[i+len(substr):] }`.
The first argument bounds the number of iterations. -/
def countLoop (substr : Str) : Nat → Str → Nat
  | 0, _ => 0
  | fuel + 1, s =>
    match Index s substr with
    | none => 0
    | some i => 1 + countLoop substr fuel (s.drop (i + substr.length))

/-- Go `strings.Count(s, substr)` (and `bytes.Count`): the number of
non-overlapping occurrences of `substr` in `s`.  For an empty `substr` Go returns
the number of runes plus one, here the number of bytes plus one (equal on ASCII
text; no call in the program passes an empty `substr`).  Each iteration of the
loop consumes at least one byte, so `s.length` iterations are enough: more
iterations give the same count (`count_fuel`). -/
def Count (s substr : Str) : Nat :=
  if substr.isEmpty then s.length + 1 else countLoop substr s.length s

/-- The replacement loop shared by Go `strings.Replace` and `bytes.Replace`, for a
non-empty `old`:
`for i := 0; i < n; i++ { j := start + Index(s[start:], old); write s[start:j]; write new; start = j + len(old) }; write s[start:]`.
The list argument is `s[start:]`.  The loop runs at most `Count(s, old)` times, so
`Index` never fails inside it; that branch returns the remainder. -/
def replaceLoop (old new : Str) : Nat → Str → Str
  | 0, s => s
  | n + 1, s =>
    match Index s old with
    | none => s
    | some j => s.take j ++ new ++ replaceLoop old new n (s.drop (j + old.length))

/-- The same loop for an empty `old`: Go matches at the start and after every
rune, here after every byte (equal on ASCII text; no call in the program passes
an empty `old`). -/
def replaceEmptyLoop (new : Str) : Nat → Bool → Str → Str
  | 0, _, s => s
  | n + 1, true, s => new ++ replaceEmptyLoop new n false s
  | _ + 1, false, [] => []
  | n + 1, false, c :: s => c :: (new ++ replaceEmptyLoop new n false s)

/-- The number of replacements Go performs: `m = Count(s, old)`, then
`if n < 0 || m < n { n = m }`. -/
def replaceCount (m : Nat) (n : Int) : Nat :=
  if n < 0 ∨ (m : Int) < n then m else n.toNat

/-- Go `strings.Replace(s, old, new, n)`. -/
def stringsReplace (s old new : Str) (n : Int) : Str :=
  if old = new ∨ n = 0 then s
  else
    let m := Count s old
    if m = 0 then s
    else if old.isEmpty then replaceEmptyLoop new (replaceCount m n) true s
    else replaceLoop old new (replaceCount m n) s

/-- Go `bytes.Replace(s, old, new, n)`. -/
def bytesReplace (s old new : Str) (n : Int) : Str :=
  let m := if n ≠ 0 then Count s old else 0
  if m = 0 then s
  else if old.isEmpty then replaceEmptyLoop new (replaceCount m n) true s
  else replaceLoop old new (replaceCount m n) s

/-! ## `singleJoiningSlash` -/

/-- Go `singleJoiningSlash(a, b)` of `main.go`. -/
def singleJoiningSlash (a b : Str) : Str :=
  let aslash := HasSuffix a "/".toList
  let bslash := HasPrefix b "/".toList
  if aslash && bslash then a ++ b.drop 1
  else if !aslash && !bslash then a ++ "/".toList ++ b
  else a ++ b

/-- The string `a` with one trailing `/` removed if it ends with `/`. -/
def trimOneTrailingSlash (a : Str) : Str :=
  if HasSuffix a "/".toList then a.dropLast else a

/-- The string `b` with one leading `/` removed if it starts with `/`. -/
def trimOneLeadingSlash (b : Str) : Str :=
  if HasPrefix b "/".toList then b.drop 1 else b

/-! ## `net/url`: the string form of a URL -/

/-- Go `url.Userinfo`. -/
structure Userinfo where
  username : Str
  password : Str
  passwordSet : Bool
  deriving DecidableEq, Repr

/-- Go `url.URL`.  `User` is `none` for Go's nil pointer. -/
structure URL where
  Scheme : Str
  Opaque : Str
  User : Option Userinfo
  Host : Str
  Path : Str
  RawPath : Str
  OmitHost : Bool
  ForceQuery : Bool
  RawQuery : Str
  Fragment : Str
  RawFragment : Str
  deriving DecidableEq, Repr

/-- Go `url.encoding`: the part of a URL being escaped. -/
inductive Encoding
  | encodePath | encodePathSegment | encodeHost | encodeZone
  | encodeUserPassword | encodeQueryComponent | encodeFragment
  deriving DecidableEq, Repr

/-- Go `url.shouldEscape(c, mode)`. -/
def shouldEscape (c : Char) (mode : Encoding) : Bool :=
  if ('a' ≤ c ∧ c ≤ 'z') ∨ ('A' ≤ c ∧ c ≤ 'Z') ∨ ('0' ≤ c ∧ c ≤ '9') then false
  else if (mode = .encodeHost ∨ mode = .encodeZone) ∧
      c ∈ ['!', '$', '&', '\'', '(', ')', '*', '+', ',', ';', '=', ':', '[', ']', '<', '>', '"'] then
    false
  else if c ∈ ['-', '_', '.', '~'] then false
  else if c ∈ ['$', '&', '+', ',', '/', ':', ';', '=', '?', '@'] ∧
      mode ∈ [Encoding.encodePath, .encodePathSegment, .encodeUserPassword,
        .encodeQueryComponent, .encodeFragment] then
    match mode with
    | .encodePath => c = '?'
    | .encodePathSegment => c = '/' ∨ c = ';' ∨ c = ',' ∨ c = '?'
    | .encodeUserPassword => c = '@' ∨ c = '/' ∨ c = '?' ∨ c = ':'
    | .encodeQueryComponent => true
    | _ => false
  else if mode = .encodeFragment ∧ c ∈ ['!', '(', ')', '*'] then false
  else true

/-- Go `upperhex[i]`, with `upperhex = "0123456789ABCDEF"`. -/
def upperhex (i : Nat) : Char := "0123456789ABCDEF".toList.getD i '0'

/-- Go `url.escape(s, mode)`: every byte that `shouldEscape` is written as `%XX`
(a space as `+` in a query component), every other byte is kept. -/
def escape (s : Str) (mode : Encoding) : Str :=
  s.flatMap fun c =>
    if c = ' ' ∧ mode = .encodeQueryComponent then ['+']
    else if shouldEscape c mode then ['%', upperhex (c.toNat / 16 % 16), upperhex (c.toNat % 16)]
    else [c]

/-- Go `url.ishex(c)`. -/
def ishex (c : Char) : Bool :=
  ('0' ≤ c ∧ c ≤ '9') ∨ ('a' ≤ c ∧ c ≤ 'f') ∨ ('A' ≤ c ∧ c ≤ 'F')

/-- Go `url.unhex(c)`. -/
def unhex (c : Char) : Nat :=
  if '0' ≤ c ∧ c ≤ '9' then c.toNat - '0'.toNat
  else if 'a' ≤ c ∧ c ≤ 'f' then c.toNat - 'a'.toNat + 10
  else if 'A' ≤ c ∧ c ≤ 'F' then c.toNat - 'A'.toNat + 10
  else 0

/-- Go `url.unescape(s, mode)`; `none` stands for a returned error.  Go validates
in a first pass and decodes in a second; here both happen in one pass, with the
same result. -/
def unescape : Str → Encoding → Option Str
  | [], _ => some []
  | c :: rest, mode =>
    if c = '%' then
      match rest with
      | a :: b :: rest2 =>
        if !ishex a || !ishex b then none
        else if mode = .encodeHost ∧ unhex a < 8 ∧ [a, b] ≠ ['2', '5'] then none
        else if mode = .encodeZone ∧ [a, b] ≠ ['2', '5'] ∧
            Char.ofNat (unhex a * 16 + unhex b) ≠ ' ' ∧
            shouldEscape (Char.ofNat (unhex a * 16 + unhex b)) .encodeHost then none
        else (unescape rest2 mode).map (Char.ofNat (unhex a * 16 + unhex b) :: ·)
      | _ => none
    else if c = '+' then
      (unescape rest mode).map ((if mode = .encodeQueryComponent then ' ' else '+') :: ·)
    else if (mode = .encodeHost ∨ mode = .encodeZone) ∧ c.toNat < 128 ∧
        shouldEscape c .encodeHost then none
    else (unescape rest mode).map (c :: ·)

/-- Go `url.validEncoded(s, mode)`. -/
def validEncoded (s : Str) (mode : Encoding) : Bool :=
  s.all fun c =>
    if c ∈ ['!', '$', '&', '\'', '(', ')', '*', '+', ',', ';', '=', ':', '@'] then true
    else if c ∈ ['[', ']'] then true
    else if c = '%' then true
    else !shouldEscape c mode

/-- Go `(*url.URL).EscapedPath()`. -/
def URL.EscapedPath (u : URL) : Str :=
  if u.RawPath ≠ [] ∧ validEncoded u.RawPath .encodePath ∧
      unescape u.RawPath .encodePath = some u.Path then u.RawPath
  else if u.Path = "*".toList then "*".toList
  else escape u.Path .encodePath

/-- Go `(*url.URL).EscapedFragment()`. -/
def URL.EscapedFragment (u : URL) : Str :=
  if u.RawFragment ≠ [] ∧ validEncoded u.RawFragment .encodeFragment ∧
      unescape u.RawFragment .encodeFragment = some u.Fragment then u.RawFragment
  else escape u.Fragment .encodeFragment

/-- Go `(*url.Userinfo).String()` for a non-nil receiver. -/
def Userinfo.String (ui : Userinfo) : Str :=
  escape ui.username .encodeUserPassword ++
    (if ui.passwordSet then ":".toList ++ escape ui.password .encodeUserPassword else [])

/-- The `scheme:` and `//userinfo@host` part that `(*url.URL).String()` writes
before the path when `Opaque` is empty. -/
def URL.authorityString (u : URL) : Str :=
  let buf : Str := if u.Scheme ≠ [] then u.Scheme ++ ":".toList else []
  if u.Scheme ≠ [] ∨ u.Host ≠ [] ∨ u.User.isSome then
    if u.OmitHost ∧ u.Host = [] ∧ u.User.isNone then buf
    else
      let buf := if u.Host ≠ [] ∨ u.Path ≠ [] ∨ u.User.isSome then buf ++ "//".toList else buf
      let buf := match u.User with
        | some ui => buf ++ ui.String ++ "@".toList
        | none => buf
      if u.Host ≠ [] then buf ++ escape u.Host .encodeHost else buf
  else buf

/-- The part of `(*url.URL).String()` written before the query: scheme, then
either the opaque part or authority and escaped path. -/
def URL.hierString (u : URL) : Str :=
  if u.Opaque ≠ [] then
    (if u.Scheme ≠ [] then u.Scheme ++ ":".toList else []) ++ u.Opaque
  else
    let buf := u.authorityString
    let path := u.EscapedPath
    let buf := if path ≠ [] ∧ path.head? ≠ some '/' ∧ u.Host ≠ [] then buf ++ "/".toList else buf
    let buf :=
      if buf = [] ∧ (path.takeWhile (· ≠ '/')).contains ':' then "./".toList else buf
    buf ++ path

/-- Go `(*url.URL).String()`. -/
def URL.String (u : URL) : Str :=
  let buf := u.hierString
  let buf := if u.ForceQuery ∨ u.RawQuery ≠ [] then buf ++ "?".toList ++ u.RawQuery else buf
  if u.Fragment ≠ [] then buf ++ "#".toList ++ u.EscapedFragment else buf

/-! ## `net/http`: requests -/

/-- Go `http.Header`: a map from (canonical) header names to their values. -/
abbrev Header := Str → Option (List Str)

/-- Go `http.Header.Set(key, value)` for a key given in canonical form:
`h[key] = []string{value}`. -/
def Header.Set (h : Header) (key value : Str) : Header :=
  fun k => if k = key then some [value] else h k

/-- Go `http.Header.Get(key)` for a key given in canonical form: the first value
stored under the key, or the empty string. -/
def Header.Get (h : Header) (key : Str) : Str :=
  match h key with
  | some (v :: _) => v
  | _ => []

/-- A message body (`io.ReadCloser`): the bytes the stream still delivers, the
error it ends with instead of a clean end of file (if any), the error its `Close`
returns (if any), and whether it has been closed. -/
structure Body where
  data : Str
  readErr : Option Str
  closeErr : Option Str
  closed : Bool
  deriving DecidableEq, Repr

/-- Go `http.Request`, the fields the proxy reads or writes. -/
structure Request where
  Method : Str
  URL : URL
  Header : Header
  Body : Body
  ContentLength : Int
  Host : Str

/-! ## The director of `NewSegmentReverseProxy` -/

/-- Lines 40-45: the target `*url.URL` chosen for a request. -/
def selectTarget (cdn trackingAPI : URL) (req : Request) : URL :=
  if HasPrefix req.URL.String "/v1/projects".toList
      || HasPrefix req.URL.String "/a.js/v1".toList
      || HasPrefix req.URL.String "/analytics.js/v1".toList then cdn
  else trackingAPI

/-- Lines 52-54: the path alias step. -/
def pathAlias (path : Str) : Str :=
  if HasPrefix path "/a.js/v1".toList then
    stringsReplace path "/a.js/v1".toList "/analytics.js/v1".toList 1
  else path

/-- Lines 55-57: the filename alias step. -/
def filenameAlias (path : Str) : Str :=
  if HasSuffix path "a.min.js".toList then
    stringsReplace path "a.min.js".toList "analytics.min.js".toList 1
  else path

/-- Lines 59-63: the merged query. -/
def mergeQuery (targetQuery rawQuery : Str) : Str :=
  if targetQuery = [] ∨ rawQuery = [] then targetQuery ++ rawQuery
  else targetQuery ++ "&".toList ++ rawQuery

/-- The director closure of `NewSegmentReverseProxy` (lines 38-68): the request
after the in-place updates. -/
def director (cdn trackingAPI : URL) (req : Request) : Request :=
  let target := selectTarget cdn trackingAPI req
  let targetQuery := target.RawQuery
  let path := singleJoiningSlash target.Path req.URL.Path
  let path := pathAlias path
  let path := filenameAlias path
  let url : URL :=
    { req.URL with
      Scheme := target.Scheme
      Host := target.Host
      Path := path
      RawQuery := mergeQuery targetQuery req.URL.RawQuery }
  { req with URL := url, Host := url.Host }

/-! ## The upstreams configured by `main` -/

/-- An `url.URL` with every field empty. -/
def URL.empty : URL :=
  { Scheme := [], Opaque := [], User := none, Host := [], Path := [], RawPath := [],
    OmitHost := false, ForceQuery := false, RawQuery := [], Fragment := [], RawFragment := [] }

/-- The value of `url.Parse("https://cdn.segment.com")` (line 139). -/
def cdnURL : URL := { URL.empty with Scheme := "https".toList, Host := "cdn.segment.com".toList }

/-- The value of `url.Parse("https://api.segment.io")` (line 143). -/
def trackingAPIURL : URL :=
  { URL.empty with Scheme := "https".toList, Host := "api.segment.io".toList }

/-! ## `strconv.Itoa` -/

/-- Go `strconv.Itoa(i)`: the decimal digits of `i`, after a `-` when `i` is
negative. -/
def Itoa (i : Int) : Str :=
  if i < 0 then '-' :: Nat.toDigits 10 i.natAbs else Nat.toDigits 10 i.toNat

/-- The number a string of decimal digits denotes. -/
def decimalValue (s : Str) : Nat :=
  s.foldl (fun acc c => 10 * acc + (c.toNat - '0'.toNat)) 0

/-! ## `net/http`: responses, and the gzip library -/

/-- A Go `error` value, by its message. -/
abbrev Error := Str

/-- Go `http.Response`, the fields the proxy reads or writes.  `Request` is the
request that was sent to obtain the response: the outbound request the director
produced. -/
structure Response where
  StatusCode : Int
  Header : Header
  Body : Body
  ContentLength : Int
  Uncompressed : Bool
  Request : Request

/-- Go `http.StatusOK`. -/
def StatusOK : Int := 200

/-- The package `compress/gzip` as `rewriteJs` uses it.  Its reader works on the
stream of a body, given by the bytes the stream delivers and the error it ends
with (if any).
* `NewReader data readErr`: the error of `gzip.NewReader(body)`, if any;
* `ReadAll data readErr`: the result of `ioutil.ReadAll(reader)` on the reader
  that `gzip.NewReader(body)` returned;
* `Write p`: the result of `writer := gzip.NewWriter(&buf); writer.Write(p);
  writer.Close()`: the error of `Write`, or else `buf.Bytes()`. -/
structure GzipLib where
  NewReader : Str → Option Error → Option Error
  ReadAll : Str → Option Error → Except Error Str
  Write : Str → Except Error Str

/-- What the library promises: writing to an in-memory buffer succeeds, and what
the writer produced the reader reads back. -/
def GzipLib.Lawful (G : GzipLib) : Prop :=
  ∀ p : Str, ∃ z : Str, G.Write p = .ok z ∧ G.NewReader z none = none ∧ G.ReadAll z none = .ok p

/-- The stream `data`, read without error, is a gzip stream with content `c`. -/
def GzipLib.Decompresses (G : GzipLib) (data c : Str) : Prop :=
  G.NewReader data none = none ∧ G.ReadAll data none = .ok c

/-- Go `ioutil.ReadAll(body)` on the body itself. -/
def Body.ReadAll (b : Body) : Except Error Str :=
  match b.readErr with
  | none => .ok b.data
  | some e => .error e

/-- Go `ioutil.NopCloser(bytes.NewReader(p))`. -/
def nopCloser (p : Str) : Body :=
  { data := p, readErr := none, closeErr := none, closed := false }

/-- Go `rewriteJs(resp)` (lines 86-131), with the flag value `*customHost` as a
parameter: the response after the call, and the returned error (`none` for
`nil`). -/
def rewriteJs (G : GzipLib) (customHost : Str) (resp : Response) : Response × Option Error :=
  -- lines 93-105
  let read : Except Error Str :=
    if resp.Uncompressed then resp.Body.ReadAll
    else
      match G.NewReader resp.Body.data resp.Body.readErr with
      | some err => .error err
      | none => G.ReadAll resp.Body.data resp.Body.readErr
  match read with
  | .error err => (resp, some err)
  | .ok responseBytes =>
    -- lines 106-109
    let resp := { resp with Body := { resp.Body with closed := true } }
    match resp.Body.closeErr with
    | some err => (resp, some err)
    | none =>
      -- line 111
      let responseBytes := bytesReplace responseBytes "api.segment.io".toList customHost (-1)
      -- lines 113-123
      let written : Except Error Str :=
        if !resp.Uncompressed then G.Write responseBytes else .ok responseBytes
      match written with
      | .error err => (resp, some err)
      | .ok responseBytes =>
        -- lines 125-130
        ({ resp with
            Body := nopCloser responseBytes
            ContentLength := (responseBytes.length : Int)
            Header := resp.Header.Set "Content-Length".toList (Itoa responseBytes.length) },
          none)

/-- The field `proxy.ModifyResponse` set by `NewSegmentReverseProxy` (lines
70-81): `none` for a nil hook. -/
def modifyResponseHook (G : GzipLib) (customHost : Str) :
    Option (Response → Response × Option Error) :=
  if customHost ≠ [] then
    some fun resp =>
      if !HasPrefix resp.Request.Host "cdn.segment.com".toList then (resp, none)
      else if resp.StatusCode ≠ StatusOK then (resp, none)
      else rewriteJs G customHost resp
  else none

/-- Go `(*httputil.ReverseProxy).modifyResponse`: the hook is run when it is
set. -/
def responseTransform (G : GzipLib) (customHost : Str) (resp : Response) :
    Response × Option Error :=
  match modifyResponseHook G customHost with
  | none => (resp, none)
  | some hook => hook resp

/-! ## What the claims speak of -/

/-- The response qualifies for the rewrite: a replacement host is configured, the
host of the response's request passes the test of line 73, the status is 200. -/
def Qualifies (customHost : Str) (resp : Response) : Prop :=
  customHost ≠ [] ∧ HasPrefix resp.Request.Host "cdn.segment.com".toList = true ∧
    resp.StatusCode = StatusOK

/-- The string `t` is `s` with every non-overlapping occurrence of `old`, scanned
left to right, replaced by `new`: either `old` does not occur in `s` and `t = s`,
or `s = u ++ old ++ v` where this occurrence is the leftmost one (no occurrence
of `old` begins earlier), and `t = u ++ new ++ t2` with `t2` the same replacement
done on the rest `v`. -/
inductive ReplacedAll (old new : Str) : Str → Str → Prop
  | done {s : Str} : ¬ old <:+: s → ReplacedAll old new s s
  | step {u v t : Str} : ¬ old <:+: u ++ old.dropLast → ReplacedAll old new v t →
      ReplacedAll old new (u ++ old ++ v) (u ++ new ++ t)

/-- A stand-in for `compress/gzip`, used to instantiate `GzipLib`: the compressed
form of `p` is `p` after the two magic bytes of a gzip header. -/
def frameGzip : GzipLib where
  NewReader data readErr :=
    match data with
    | '\x1f' :: '\x8b' :: _ => none
    | [] => some (readErr.getD "EOF".toList)
    | _ => some "gzip: invalid header".toList
  ReadAll data readErr :=
    match readErr with
    | some e => .error e
    | none => .ok (data.drop 2)
  Write p := .ok ('\x1f' :: '\x8b' :: p)

/-- A `GET` request for the URL `url`, without headers or body, as a client that
addresses the proxy as `proxy.example.com` sends it. -/
def getRequest (url : URL) : Request :=
  { Method := "GET".toList, URL := url, Header := fun _ => none, Body := nopCloser [],
    ContentLength := 0, Host := "proxy.example.com".toList }

/-- The request `GET /v1/projects/x HTTP/1.1` (origin form), as
`http.ReadRequest` parses it. -/
def originFormRequest : Request :=
  getRequest { URL.empty with Path := "/v1/projects/x".toList }

/-- The request `GET http://proxy.example.com/v1/projects/x HTTP/1.1` (absolute
form), as `http.ReadRequest` parses it: same path, with scheme and host. -/
def absoluteFormRequest : Request :=
  getRequest { URL.empty with
    Scheme := "http".toList, Host := "proxy.example.com".toList, Path := "/v1/projects/x".toList }

/-- The request `GET /v1%2Fprojects/x HTTP/1.1`, as `http.ReadRequest` parses it:
same (decoded) path, with the escaped form kept in `RawPath`. -/
def escapedSlashRequest : Request :=
  getRequest { URL.empty with Path := "/v1/projects/x".toList, RawPath := "/v1%2Fprojects/x".toList }

/-- A prefix the director tests for: it starts with `/` and is made of bytes that
`url.escape` keeps in a path and that are none of `%`, `?`, `#`. -/
def PlainPathPrefix (pre : Str) : Prop :=
  pre.head? = some '/' ∧
    ∀ c ∈ pre, c ≠ '%' ∧ c ≠ '?' ∧ c ≠ '#' ∧ shouldEscape c .encodePath = false

/-- One of the three prefixes the director tests for is a prefix of `s`. -/
def HasCDNPrefix (s : Str) : Prop :=
  "/v1/projects".toList <+: s ∨ "/a.js/v1".toList <+: s ∨ "/analytics.js/v1".toList <+: s

/-- A response with status 200 to the outbound request the director makes of
`GET /v1/projects/x` under the upstreams of `main` (the CDN origin), with the given
body and `Uncompressed` flag. -/
def cdnResponse (body : Str) (uncompressed : Bool) : Response :=
  { StatusCode := 200, Header := fun _ => none, Body := nopCloser body,
    ContentLength := (body.length : Int), Uncompressed := uncompressed,
    Request := director cdnURL trackingAPIURL originFormRequest }

/-- A response with status 200 to the outbound request the director makes of
`GET /v1/track` under the upstreams of `main` (the Tracking-API origin). -/
def trackingResponse (body : Str) : Response :=
  { StatusCode := 200, Header := fun _ => none, Body := nopCloser body,
    ContentLength := (body.length : Int), Uncompressed := true,
    Request := director cdnURL trackingAPIURL
      (getRequest { URL.empty with Path := "/v1/track".toList }) }

/-- A script that names the Tracking-API host twice. -/
def sampleScript : Str := "load(api.segment.io/v1); retry(api.segment.io)".toList

/-- The host name `rewriteJs` replaces (line 111). -/
def apiHost : Str := "api.segment.io".toList

/-- A replacement host, as passed with `-host`. -/
def sampleHost : Str := "proxy.example.com".toList

/-- The response `rewriteJs` leaves on success (lines 125-128), given the bytes of
the new body. -/
def withNewBody (resp : Response) (responseBytes : Str) : Response :=
  { resp with
    Body := nopCloser responseBytes
    ContentLength := (responseBytes.length : Int)
    Header := resp.Header.Set "Content-Length".toList (Itoa responseBytes.length) }

/-- The script `sampleScript` in the compressed form of `frameGzip`. -/
def sampleGzipBody : Str := '\x1f' :: '\x8b' :: sampleScript

/-- The request `GET /bundle/a.min.js HTTP/1.1` (origin form). -/
def bundleRequest : Request :=
  getRequest { URL.empty with Path := "/bundle/a.min.js".toList }

/-- The request `GET http://proxy.example.com/a.js/v1/k/x.js HTTP/1.1` (absolute
form). -/
def absoluteAliasRequest : Request :=
  getRequest { URL.empty with
    Scheme := "http".toList, Host := "proxy.example.com".toList, Path := "/a.js/v1/k/x.js".toList }

/-- The request `GET /a.js/v1/k/x.js HTTP/1.1` (origin form). -/
def originAliasRequest : Request :=
  getRequest { URL.empty with Path := "/a.js/v1/k/x.js".toList }

/-- Constructing the gzip reader fails: the body was not delivered uncompressed
and `gzip.NewReader` returns an error on it. -/
def NewReaderFails (G : GzipLib) (resp : Response) : Prop :=
  resp.Uncompressed = false ∧ G.NewReader resp.Body.data resp.Body.readErr ≠ none

/-- Reading the body to completion (line 102) ends with the error `e`. -/
def ReadAllFailsWith (G : GzipLib) (resp : Response) (e : Error) : Prop :=
  (resp.Uncompressed = true ∧ resp.Body.ReadAll = .error e) ∨
    (resp.Uncompressed = false ∧ G.NewReader resp.Body.data resp.Body.readErr = none ∧
      G.ReadAll resp.Body.data resp.Body.readErr = .error e)

/-- Reading the body to completion fails. -/
def ReadAllFails (G : GzipLib) (resp : Response) : Prop :=
  ∃ e : Error, ReadAllFailsWith G resp e

/-- Closing the original body fails. -/
def CloseFails (resp : Response) : Prop :=
  resp.Body.closeErr ≠ none

/-- Reading the body to completion (lines 93-105) succeeds with the content
`c`. -/
def ReadsTo (G : GzipLib) (resp : Response) (c : Str) : Prop :=
  (resp.Uncompressed = true ∧ resp.Body.ReadAll = .ok c) ∨
    (resp.Uncompressed = false ∧ G.NewReader resp.Body.data resp.Body.readErr = none ∧
      G.ReadAll resp.Body.data resp.Body.readErr = .ok c)

/-- The response after `resp.Body.Close()` (line 106). -/
def closeBody (resp : Response) : Response :=
  { resp with Body := { resp.Body with closed := true } }

/-- The replacement `new` overlaps `old`: `old` occurs in `new`, or `new` occurs
in `old` (as the empty string does), or a non-empty prefix of `new` is a suffix
of `old`, or a non-empty suffix of `new` is a prefix of `old`. -/
def overlaps (old new : Str) : Bool :=
  (Index new old).isSome || (Index old new).isSome ||
    new.inits.any (fun p => !p.isEmpty && p.isSuffixOf old) ||
    new.tails.any (fun q => !q.isEmpty && q.isPrefixOf old)

/-- A replacement host that contains `api.segment.io`. -/
def overlappingHost : Str := "api.segment.io.example.com".toList

/-! ## Lemmas on `strings.Index`, `strings.Count` and the replacement loop -/

theorem hasPrefix_iff (s pre : Str) : HasPrefix s pre = true ↔ pre <+: s := by
  simp [HasPrefix]

theorem hasSuffix_iff (s suf : Str) : HasSuffix s suf = true ↔ suf <:+ s := by
  simp [HasSuffix]

theorem index_eq_none_iff (s old : Str) : Index s old = none ↔ ¬ old <:+: s := by
  induction s with
  | nil =>
    cases old <;> simp [Index]
  | cons c s ih =>
    by_cases hp : old.isPrefixOf (c :: s) = true
    · have hpre : old <+: c :: s := List.isPrefixOf_iff_prefix.mp hp
      simp [Index, hp, hpre.isInfix]
    · have hpre : ¬ old <+: c :: s := fun h => hp (List.isPrefixOf_iff_prefix.mpr h)
      simp only [Index, hp, Bool.false_eq_true, if_false, Option.map_eq_none', ih,
        List.infix_cons_iff, hpre, false_or]

theorem not_infix_dropLast (old : Str) (h : old ≠ []) : ¬ old <:+: old.dropLast := by
  intro hin
  have h1 := hin.length_le
  have h2 : 0 < old.length := List.length_pos.mpr h
  rw [List.length_dropLast] at h1
  omega

theorem index_some (old : Str) (hold : old ≠ []) :
    ∀ (s : Str) (j : Nat), Index s old = some j →
      s = s.take j ++ old ++ s.drop (j + old.length) ∧ ¬ old <:+: s.take j ++ old.dropLast := by
  intro s
  induction s with
  | nil =>
    intro j h
    cases old with
    | nil => exact absurd rfl hold
    | cons a o => simp [Index] at h
  | cons c s ih =>
    intro j h
    by_cases hp : old.isPrefixOf (c :: s) = true
    · have hpre : old <+: c :: s := List.isPrefixOf_iff_prefix.mp hp
      simp only [Index, hp, if_true, Option.some.injEq] at h
      subst h
      refine ⟨?_, ?_⟩
      · simpa using (List.prefix_iff_eq_append.mp hpre).symm
      · simp [not_infix_dropLast old hold]
    · simp only [Index, hp, Bool.false_eq_true, if_false, Option.map_eq_some'] at h
      obtain ⟨k, hk, rfl⟩ := h
      obtain ⟨h1, h2⟩ := ih k hk
      refine ⟨?_, ?_⟩
      · have e : k + 1 + old.length = (k + old.length) + 1 := by omega
        rw [e, List.take_succ_cons, List.drop_succ_cons]
        simpa using h1
      · rw [List.take_succ_cons, List.cons_append, List.infix_cons_iff]
        rintro (hpre | hin)
        · apply hp
          apply List.isPrefixOf_iff_prefix.mpr
          refine hpre.trans ?_
          rw [List.prefix_cons_inj]
          conv_rhs => rw [h1]
          rw [List.append_assoc, List.prefix_append_right_inj]
          exact (List.dropLast_prefix old).trans (List.prefix_append _ _)
        · exact h2 hin

theorem index_of_leftmost (old : Str) (hold : old ≠ []) (v : Str) :
    ∀ u : Str, ¬ old <:+: u ++ old.dropLast → Index (u ++ old ++ v) old = some u.length := by
  intro u
  induction u with
  | nil =>
    intro _
    cases old with
    | nil => exact absurd rfl hold
    | cons a o =>
      have hp : (a :: o).isPrefixOf (a :: (o ++ v)) = true :=
        List.isPrefixOf_iff_prefix.mpr (by simp)
      simp [Index, hp]
  | cons a u ih =>
    intro hno
    have hno2 : ¬ old <:+: u ++ old.dropLast := by
      intro h
      apply hno
      rw [List.cons_append, List.infix_cons_iff]
      exact Or.inr h
    have hp : ¬ old.isPrefixOf (a :: (u ++ old ++ v)) = true := by
      intro hp
      have hpre : old <+: (a :: u ++ old.dropLast) ++ ([old.getLast hold] ++ v) := by
        have := List.isPrefixOf_iff_prefix.mp hp
        have e : (a :: u ++ old.dropLast) ++ ([old.getLast hold] ++ v) = a :: (u ++ old ++ v) := by
          conv_rhs => rw [← List.dropLast_append_getLast hold]
          simp
        rw [e]
        exact this
      have hlen : old.length ≤ (a :: u ++ old.dropLast).length := by
        simp only [List.cons_append, List.length_cons, List.length_append, List.length_dropLast]
        have : 0 < old.length := List.length_pos.mpr hold
        omega
      exact hno (List.prefix_of_prefix_length_le hpre (List.prefix_append _ _) hlen).isInfix
    have h1 := ih hno2
    simp only [List.cons_append, List.append_assoc] at hp h1 ⊢
    simp [Index, hp, h1]

theorem index_add_le (old : Str) (hold : old ≠ []) (s : Str) (j : Nat)
    (h : Index s old = some j) : j + old.length ≤ s.length := by
  have h1 := (index_some old hold s j h).1
  have h2 := congrArg List.length h1
  have hpos : 0 < old.length := List.length_pos.mpr hold
  simp only [List.length_append, List.length_take, List.length_drop] at h2
  omega

theorem countLoop_fuel (old : Str) (hold : old ≠ []) :
    ∀ (f1 f2 : Nat) (s : Str), s.length ≤ f1 → s.length ≤ f2 →
      countLoop old f1 s = countLoop old f2 s := by
  have hnil : Index [] old = none := by
    cases old with
    | nil => exact absurd rfl hold
    | cons a o => simp [Index]
  intro f1
  induction f1 with
  | zero =>
    intro f2 s h1 _
    have hs : s = [] := List.length_eq_zero.mp (Nat.le_zero.mp h1)
    subst hs
    cases f2 <;> simp [countLoop, hnil]
  | succ f1 ih =>
    intro f2 s h1 h2
    cases f2 with
    | zero =>
      have hs : s = [] := List.length_eq_zero.mp (Nat.le_zero.mp h2)
      subst hs
      simp [countLoop, hnil]
    | succ f2 =>
      cases hi : Index s old with
      | none => simp [countLoop, hi]
      | some j =>
        have hj := index_add_le old hold s j hi
        have hpos : 0 < old.length := List.length_pos.mpr hold
        simp only [countLoop, hi]
        rw [ih f2 (s.drop (j + old.length)) (by simp; omega) (by simp; omega)]

theorem count_eq_zero_iff (old : Str) (hold : old ≠ []) (s : Str) :
    Count s old = 0 ↔ Index s old = none := by
  have he : old.isEmpty = false := by cases old <;> simp_all
  simp only [Count, he, Bool.false_eq_true, if_false]
  cases s with
  | nil =>
    cases old with
    | nil => exact absurd rfl hold
    | cons a o => simp [countLoop, Index]
  | cons c s =>
    cases hi : Index (c :: s) old <;> simp [countLoop, hi]

theorem count_fuel (old : Str) (hold : old ≠ []) (s : Str) (fuel : Nat) (h : s.length ≤ fuel) :
    countLoop old fuel s = Count s old := by
  have he : old.isEmpty = false := by cases old <;> simp_all
  simp only [Count, he, Bool.false_eq_true, if_false]
  exact countLoop_fuel old hold fuel s.length s h (Nat.le_refl _)

theorem isEmpty_eq_false (old : Str) (hold : old ≠ []) : old.isEmpty = false := by
  cases old <;> simp_all

theorem replaceLoop_replacedAll (old new : Str) (hold : old ≠ []) :
    ∀ (fuel : Nat) (s : Str), s.length ≤ fuel →
      ReplacedAll old new s (replaceLoop old new (countLoop old fuel s) s) := by
  intro fuel
  induction fuel with
  | zero =>
    intro s hs
    have hs : s = [] := List.length_eq_zero.mp (Nat.le_zero.mp hs)
    subst hs
    simp only [countLoop, replaceLoop]
    exact ReplacedAll.done (by simpa using hold)
  | succ fuel ih =>
    intro s hs
    cases hi : Index s old with
    | none =>
      simp only [countLoop, hi, replaceLoop]
      exact ReplacedAll.done ((index_eq_none_iff s old).mp hi)
    | some j =>
      obtain ⟨h1, h2⟩ := index_some old hold s j hi
      have hj := index_add_le old hold s j hi
      have hpos : 0 < old.length := List.length_pos.mpr hold
      have hrec := ih (s.drop (j + old.length)) (by simp; omega)
      have e : 1 + countLoop old fuel (s.drop (j + old.length))
          = countLoop old fuel (s.drop (j + old.length)) + 1 := by omega
      simp only [countLoop, hi, e, replaceLoop]
      have hstep := @ReplacedAll.step old new _ _ _ h2 hrec
      rw [← h1] at hstep
      exact hstep

theorem replacedAll_unique (old new : Str) (hold : old ≠ []) (s t : Str)
    (h : ReplacedAll old new s t) :
    ∀ fuel : Nat, s.length ≤ fuel → t = replaceLoop old new (countLoop old fuel s) s := by
  induction h with
  | @done s hno =>
    intro fuel _
    have hi := (index_eq_none_iff s old).mpr hno
    cases fuel <;> simp [countLoop, hi, replaceLoop]
  | @step u v t hno _ ih =>
    intro fuel hfuel
    have hi := index_of_leftmost old hold v u hno
    have hpos : 0 < old.length := List.length_pos.mpr hold
    simp only [List.length_append] at hfuel
    cases fuel with
    | zero => omega
    | succ fuel =>
      have e : 1 + countLoop old fuel ((u ++ old ++ v).drop (u.length + old.length))
          = countLoop old fuel ((u ++ old ++ v).drop (u.length + old.length)) + 1 := by omega
      have hd : (u ++ old ++ v).drop (u.length + old.length) = v := by
        rw [← List.length_append]; exact List.drop_left _ _
      have ht : (u ++ old ++ v).take u.length = u := by
        rw [List.append_assoc]; exact List.take_left _ _
      simp only [countLoop, hi, e, replaceLoop]
      rw [hd, ht, ← ih fuel (by omega)]

theorem bytesReplace_all (s old new : Str) (hold : old ≠ []) :
    bytesReplace s old new (-1) = replaceLoop old new (Count s old) s := by
  have he := isEmpty_eq_false old hold
  by_cases hm : Count s old = 0
  · simp [bytesReplace, hm, replaceLoop]
  · simp [bytesReplace, hm, he, replaceCount]

theorem bytesReplace_replacedAll (s old new : Str) (hold : old ≠ []) (t : Str) :
    ReplacedAll old new s t ↔ t = bytesReplace s old new (-1) := by
  have he := isEmpty_eq_false old hold
  have hc : Count s old = countLoop old s.length s := by simp [Count, he]
  rw [bytesReplace_all s old new hold, hc]
  constructor
  · intro h
    exact replacedAll_unique old new hold s t h s.length (Nat.le_refl _)
  · rintro rfl
    exact replaceLoop_replacedAll old new hold s.length s (Nat.le_refl _)

theorem stringsReplace_one (s old new : Str) (hold : old ≠ []) (hne : old ≠ new) :
    stringsReplace s old new 1 =
      match Index s old with
      | none => s
      | some j => s.take j ++ new ++ s.drop (j + old.length) := by
  have he := isEmpty_eq_false old hold
  cases hi : Index s old with
  | none =>
    have hm := (count_eq_zero_iff old hold s).mpr hi
    simp [stringsReplace, hm]
  | some j =>
    have hm : Count s old ≠ 0 := fun h => by
      rw [(count_eq_zero_iff old hold s).mp h] at hi
      exact Option.noConfusion hi
    have hc : replaceCount (Count s old) 1 = 1 := by
      have : ¬ ((Count s old : Int) < 1) := by omega
      simp [replaceCount, this]
    simp [stringsReplace, hne, hm, he, hc, replaceLoop, hi]

theorem stringsReplace_one_leftmost (old new : Str) (hold : old ≠ []) (hne : old ≠ new)
    (u v : Str) (hno : ¬ old <:+: u ++ old.dropLast) :
    stringsReplace (u ++ old ++ v) old new 1 = u ++ new ++ v := by
  rw [stringsReplace_one _ old new hold hne, index_of_leftmost old hold v u hno]
  have hd : (u ++ old ++ v).drop (u.length + old.length) = v := by
    rw [← List.length_append]; exact List.drop_left _ _
  have ht : (u ++ old ++ v).take u.length = u := by
    rw [List.append_assoc]; exact List.take_left _ _
  simp only [hd, ht]

theorem leftmost_exists (old : Str) (hold : old ≠ []) (s : Str) (h : old <:+: s) :
    ∃ u v : Str, s = u ++ old ++ v ∧ ¬ old <:+: u ++ old.dropLast := by
  cases hi : Index s old with
  | none => exact absurd h ((index_eq_none_iff s old).mp hi)
  | some j =>
    obtain ⟨h1, h2⟩ := index_some old hold s j hi
    exact ⟨s.take j, s.drop (j + old.length), h1, h2⟩

/-! ## The director -/

theorem director_path (cdn trackingAPI : URL) (req : Request) :
    (director cdn trackingAPI req).URL.Path =
      filenameAlias (pathAlias
        (singleJoiningSlash (selectTarget cdn trackingAPI req).Path req.URL.Path)) :=
  rfl

/-- C6: for every base path `a` and request path `b`, `singleJoiningSlash a b` is
`a` without one trailing slash (if it has one), then exactly one `/`, then `b`
without one leading slash (if it has one); this covers all four combinations of
slash presence, so no slash is doubled and none is missing at the join. -/
theorem singleJoiningSlash_single (a b : Str) :
    singleJoiningSlash a b = trimOneTrailingSlash a ++ "/".toList ++ trimOneLeadingSlash b := by
  have ha : HasSuffix a "/".toList = true → a = a.dropLast ++ ['/'] := by
    intro h
    obtain ⟨t, ht⟩ := (hasSuffix_iff _ _).mp h
    subst ht
    simp
  have hb : HasPrefix b "/".toList = true → b = '/' :: b.drop 1 := by
    intro h
    obtain ⟨t, ht⟩ := (hasPrefix_iff _ _).mp h
    subst ht
    simp
  cases h1 : HasSuffix a "/".toList <;> cases h2 : HasPrefix b "/".toList
  · simp only [singleJoiningSlash, trimOneTrailingSlash, trimOneLeadingSlash, h1, h2]
    simp
  · have e := hb h2
    simp only [singleJoiningSlash, trimOneTrailingSlash, trimOneLeadingSlash, h1, h2]
    conv_lhs => rw [e]
    simp
  · have e := ha h1
    simp only [singleJoiningSlash, trimOneTrailingSlash, trimOneLeadingSlash, h1, h2]
    conv_lhs => rw [e]
    simp
  · have e := ha h1
    simp only [singleJoiningSlash, trimOneTrailingSlash, trimOneLeadingSlash, h1, h2]
    conv_lhs => rw [e]
    simp

/-- C7: the path alias step turns every joined path `/a.js/v1 ++ r` into
`/analytics.js/v1 ++ r`, replacing the leading prefix only (an occurrence of
`/a.js/v1` inside `r` stays), and leaves every joined path that does not start
with `/a.js/v1` unchanged. -/
theorem pathAlias_leading (r p : Str) :
    pathAlias ("/a.js/v1".toList ++ r) = "/analytics.js/v1".toList ++ r ∧
      (HasPrefix p "/a.js/v1".toList = false → pathAlias p = p) := by
  refine ⟨?_, ?_⟩
  · have hp : HasPrefix ("/a.js/v1".toList ++ r) "/a.js/v1".toList = true :=
      (hasPrefix_iff _ _).mpr (List.prefix_append _ _)
    have h := stringsReplace_one_leftmost "/a.js/v1".toList "/analytics.js/v1".toList
      (by decide) (by decide) [] r (by decide)
    simp only [List.nil_append] at h
    simp only [pathAlias, hp, if_true]
    exact h
  · intro h
    simp only [pathAlias, h, Bool.false_eq_true, if_false]

/-- The witness of C7: `/a.js/v1/foo` becomes `/analytics.js/v1/foo`, and `/v1/t`
is kept. -/
theorem pathAlias_leading_witness :
    pathAlias ("/a.js/v1".toList ++ "/foo".toList) = "/analytics.js/v1".toList ++ "/foo".toList ∧
      HasPrefix "/v1/t".toList "/a.js/v1".toList = false ∧
      pathAlias "/v1/t".toList = "/v1/t".toList :=
  ⟨(pathAlias_leading "/foo".toList "/v1/t".toList).1, by decide,
    (pathAlias_leading "/foo".toList "/v1/t".toList).2 (by decide)⟩

/-- C8: for a path `p` that ends with `a.min.js`, `p` has a leftmost occurrence of
`a.min.js` (`p = u ++ a.min.js ++ v` with no occurrence beginning before this
one), and the filename alias step returns `u ++ analytics.min.js ++ v`: the
leftmost occurrence replaced, the rest `v`, with any later occurrence, kept; a
path that does not end with `a.min.js` is returned unchanged. -/
theorem filenameAlias_first_occurrence (p : Str) :
    (HasSuffix p "a.min.js".toList = true →
      (∃ u v : Str, p = u ++ "a.min.js".toList ++ v ∧
        ¬ "a.min.js".toList <:+: u ++ "a.min.js".toList.dropLast) ∧
      ∀ u v : Str, p = u ++ "a.min.js".toList ++ v →
        ¬ "a.min.js".toList <:+: u ++ "a.min.js".toList.dropLast →
        filenameAlias p = u ++ "analytics.min.js".toList ++ v) ∧
    (HasSuffix p "a.min.js".toList = false → filenameAlias p = p) := by
  refine ⟨fun hs => ⟨?_, ?_⟩, ?_⟩
  · exact leftmost_exists _ (by decide) p ((hasSuffix_iff _ _).mp hs).isInfix
  · intro u v hp hno
    simp only [filenameAlias, hs, if_true]
    rw [hp]
    exact stringsReplace_one_leftmost _ _ (by decide) (by decide) u v hno
  · intro h
    simp only [filenameAlias, h, Bool.false_eq_true, if_false]

/-- The witness of C8: in `/a.min.js/x/a.min.js` the first occurrence is replaced
and the last one kept, and `/a.min.js/x` is returned unchanged. -/
theorem filenameAlias_first_occurrence_witness :
    filenameAlias "/a.min.js/x/a.min.js".toList = "/analytics.min.js/x/a.min.js".toList ∧
      filenameAlias "/a.min.js/x".toList = "/a.min.js/x".toList :=
  ⟨((filenameAlias_first_occurrence "/a.min.js/x/a.min.js".toList).1 (by decide)).2
      "/".toList "/x/a.min.js".toList (by decide) (by decide),
    (filenameAlias_first_occurrence "/a.min.js/x".toList).2 (by decide)⟩

/-- C9: the filename alias step is not a replacement of the trailing filename.
The director sends `/a.min.js/a.min.js` upstream as `/analytics.min.js/a.min.js`,
not as `/a.min.js/analytics.min.js`, and it rewrites `/data.min.js`, whose final
segment is not `a.min.js`, to `/datanalytics.min.js`. -/
theorem filenameAlias_not_trailing_filename :
    filenameAlias ("/a.min.js".toList ++ "/a.min.js".toList)
        = "/analytics.min.js/a.min.js".toList ∧
      filenameAlias ("/a.min.js".toList ++ "/a.min.js".toList)
        ≠ "/a.min.js".toList ++ "/analytics.min.js".toList ∧
      (director cdnURL trackingAPIURL
          (getRequest { URL.empty with Path := "/a.min.js/a.min.js".toList })).URL.Path
        = "/analytics.min.js/a.min.js".toList ∧
      filenameAlias "/data.min.js".toList = "/datanalytics.min.js".toList ∧
      (director cdnURL trackingAPIURL
          (getRequest { URL.empty with Path := "/data.min.js".toList })).URL.Path
        = "/datanalytics.min.js".toList := by
  decide

/-- C10: the outbound query is the target's query and the request's query joined
by one `&` when both are non-empty, the request's query when the target's is
empty, the target's query when the request's is empty, and empty when both are
empty. -/
theorem director_query (cdn trackingAPI : URL) (req : Request) :
    let tq := (selectTarget cdn trackingAPI req).RawQuery
    let rq := req.URL.RawQuery
    let out := (director cdn trackingAPI req).URL.RawQuery
    (tq ≠ [] → rq ≠ [] → out = tq ++ "&".toList ++ rq) ∧
      (tq = [] → out = rq) ∧ (rq = [] → out = tq) ∧ (tq = [] → rq = [] → out = []) := by
  intro tq rq out
  have hout : out = mergeQuery tq rq := rfl
  refine ⟨?_, ?_, ?_, ?_⟩
  · intro h1 h2
    simp [hout, mergeQuery, h1, h2]
  · intro h1
    simp [hout, mergeQuery, h1]
  · intro h2
    simp [hout, mergeQuery, h2]
  · intro h1 h2
    simp [hout, mergeQuery, h1, h2]

/-- The witness of C10: target query `a=1` and request query `b=2` give `a=1&b=2`;
an empty target query gives `b=2`; an empty request query gives `a=1`; both empty
give the empty query. -/
theorem director_query_witness :
    (director { cdnURL with RawQuery := "a=1".toList } { trackingAPIURL with RawQuery := "a=1".toList }
        (getRequest { URL.empty with Path := "/x".toList, RawQuery := "b=2".toList })).URL.RawQuery
        = "a=1&b=2".toList ∧
      (director cdnURL trackingAPIURL
        (getRequest { URL.empty with Path := "/x".toList, RawQuery := "b=2".toList })).URL.RawQuery
        = "b=2".toList ∧
      (director { cdnURL with RawQuery := "a=1".toList } { trackingAPIURL with RawQuery := "a=1".toList }
        (getRequest { URL.empty with Path := "/x".toList })).URL.RawQuery = "a=1".toList ∧
      (director cdnURL trackingAPIURL
        (getRequest { URL.empty with Path := "/x".toList })).URL.RawQuery = [] :=
  ⟨(director_query { cdnURL with RawQuery := "a=1".toList }
        { trackingAPIURL with RawQuery := "a=1".toList }
        (getRequest { URL.empty with Path := "/x".toList, RawQuery := "b=2".toList })).1
      (by decide) (by decide),
    (director_query cdnURL trackingAPIURL
        (getRequest { URL.empty with Path := "/x".toList, RawQuery := "b=2".toList })).2.1
      (by decide),
    (director_query { cdnURL with RawQuery := "a=1".toList }
        { trackingAPIURL with RawQuery := "a=1".toList }
        (getRequest { URL.empty with Path := "/x".toList })).2.2.1 (by decide),
    (director_query cdnURL trackingAPIURL
        (getRequest { URL.empty with Path := "/x".toList })).2.2.2 (by decide) (by decide)⟩

/-- C5: after the director has run, the URL scheme and URL host of the request
are those of the selected target and the `Host` field is that target's host,
whatever the inbound request carried; the selected target is one of the two
upstreams; method, headers and body are the inbound ones. -/
theorem director_target (cdn trackingAPI : URL) (req : Request) :
    let target := selectTarget cdn trackingAPI req
    let out := director cdn trackingAPI req
    (target = cdn ∨ target = trackingAPI) ∧
      out.URL.Scheme = target.Scheme ∧ out.URL.Host = target.Host ∧ out.Host = target.Host ∧
      out.Method = req.Method ∧ out.Header = req.Header ∧ out.Body = req.Body := by
  intro target out
  refine ⟨?_, rfl, rfl, rfl, rfl, rfl, rfl⟩
  show selectTarget cdn trackingAPI req = cdn ∨ selectTarget cdn trackingAPI req = trackingAPI
  unfold selectTarget
  split
  · exact Or.inl rfl
  · exact Or.inr rfl

/-! ## Target selection -/

theorem isPrefixOf_append_cons (c : Char) (Y : Str) :
    ∀ (pre X : Str), c ∉ pre → pre.isPrefixOf (X ++ c :: Y) = pre.isPrefixOf X := by
  intro pre
  induction pre with
  | nil => intro X _; simp
  | cons p pre ih =>
    intro X hc
    have hpc : p ≠ c := fun h => hc (by simp [h])
    have hc2 : c ∉ pre := fun h => hc (by simp [h])
    cases X with
    | nil => simp [List.isPrefixOf, hpc]
    | cons x X => simp [List.isPrefixOf, ih X hc2]

theorem escape_path_cons (x : Char) (s : Str) :
    escape (x :: s) .encodePath =
      (if shouldEscape x .encodePath = true then
        ['%', upperhex (x.toNat / 16 % 16), upperhex (x.toNat % 16)]
      else [x]) ++ escape s .encodePath := by
  simp [escape]

theorem isPrefixOf_escape :
    ∀ (pre s : Str), (∀ c ∈ pre, c ≠ '%' ∧ shouldEscape c .encodePath = false) →
      pre.isPrefixOf (escape s .encodePath) = pre.isPrefixOf s := by
  intro pre
  induction pre with
  | nil => intro s _; simp
  | cons p pre ih =>
    intro s h
    have hp := h p (by simp)
    have h2 : ∀ c ∈ pre, c ≠ '%' ∧ shouldEscape c .encodePath = false :=
      fun c hc => h c (by simp [hc])
    cases s with
    | nil => simp [escape, List.isPrefixOf]
    | cons x s =>
      have ih2 := ih s h2
      rw [escape_path_cons]
      cases hx : shouldEscape x .encodePath with
      | true =>
        have hpx : p ≠ x := fun e => by rw [e, hx] at hp; exact Bool.noConfusion hp.2
        have e1 : (p == '%') = false := by simpa using hp.1
        have e2 : (p == x) = false := by simpa using hpx
        simp [List.isPrefixOf, e1, e2]
      | false =>
        simp [List.isPrefixOf, ih2]

theorem isPrefixOf_string (u : URL) (pre : Str) (h1 : '?' ∉ pre) (h2 : '#' ∉ pre) :
    pre.isPrefixOf u.String = pre.isPrefixOf u.hierString := by
  have hq : ∀ X Y : Str, pre.isPrefixOf (X ++ "?".toList ++ Y) = pre.isPrefixOf X := by
    intro X Y
    simpa using isPrefixOf_append_cons '?' Y pre X h1
  have hf : ∀ X Y : Str, pre.isPrefixOf (X ++ "#".toList ++ Y) = pre.isPrefixOf X := by
    intro X Y
    simpa using isPrefixOf_append_cons '#' Y pre X h2
  simp only [URL.String]
  by_cases ha : u.ForceQuery = true ∨ u.RawQuery ≠ [] <;> by_cases hb : u.Fragment ≠ []
  · rw [if_pos ha, if_pos hb, hf, hq]
  · rw [if_pos ha, if_neg hb, hq]
  · rw [if_neg ha, if_pos hb, hf]
  · rw [if_neg ha, if_neg hb]

theorem isPrefixOf_origin_form (u : URL) (pre : Str) (hpre : PlainPathPrefix pre)
    (hs : u.Scheme = []) (ho : u.Opaque = []) (hu : u.User = none) (hh : u.Host = [])
    (hr : u.RawPath = []) : pre.isPrefixOf u.hierString = pre.isPrefixOf u.Path := by
  obtain ⟨hhead, hall⟩ := hpre
  have hesc := isPrefixOf_escape pre u.Path (fun c hc => ⟨(hall c hc).1, (hall c hc).2.2.2⟩)
  obtain ⟨pre2, rfl⟩ : ∃ pre2, pre = '/' :: pre2 := by
    cases pre with
    | nil => simp at hhead
    | cons a pre2 => simp at hhead; exact ⟨pre2, by rw [hhead]⟩
  have hquirk : ∀ path : Str, ((path.takeWhile (· ≠ '/')).contains ':') = true →
      ('/' :: pre2).isPrefixOf path = false := by
    intro path hc
    cases path with
    | nil => simp [List.isPrefixOf]
    | cons x xs =>
      by_cases hx : x = '/'
      · subst hx
        simp [List.takeWhile] at hc
      · have : ('/' == x) = false := by simpa using fun e => hx e.symm
        simp [List.isPrefixOf, this]
  have hauth : u.authorityString = [] := by
    simp [URL.authorityString, hs, hh, hu]
  have hpath : ('/' :: pre2).isPrefixOf u.EscapedPath = ('/' :: pre2).isPrefixOf u.Path := by
    unfold URL.EscapedPath
    by_cases hstar : u.Path = "*".toList
    · simp [hr, hstar]
    · simp only [hr, ne_eq, not_true_eq_false, false_and, if_false, hstar, hesc]
  unfold URL.hierString
  simp only [ho, ne_eq, not_true_eq_false, if_false, hauth, hh, and_false, List.nil_append,
    true_and]
  by_cases hq : ((u.EscapedPath.takeWhile (· ≠ '/')).contains ':') = true
  · rw [if_pos hq, ← hpath, hquirk _ hq]
    simp [List.isPrefixOf]
  · rw [if_neg hq, List.nil_append, hpath]

theorem plainPathPrefix_projects : PlainPathPrefix "/v1/projects".toList := by
  unfold PlainPathPrefix; decide

theorem plainPathPrefix_ajs : PlainPathPrefix "/a.js/v1".toList := by
  unfold PlainPathPrefix; decide

theorem plainPathPrefix_analytics : PlainPathPrefix "/analytics.js/v1".toList := by
  unfold PlainPathPrefix; decide

/-- C1 as stated fails: the three requests below have the same path
`/v1/projects/x`, which starts with `/v1/projects`; the one in origin form is
given the CDN origin, the one in absolute form (a scheme and a host in the URL)
and the one with the escaped slash (a raw path) are given the Tracking-API
origin. -/
theorem selectTarget_not_by_path_alone :
    absoluteFormRequest.URL.Path = originFormRequest.URL.Path ∧
      escapedSlashRequest.URL.Path = originFormRequest.URL.Path ∧
      HasPrefix originFormRequest.URL.Path "/v1/projects".toList = true ∧
      selectTarget cdnURL trackingAPIURL originFormRequest = cdnURL ∧
      selectTarget cdnURL trackingAPIURL absoluteFormRequest = trackingAPIURL ∧
      selectTarget cdnURL trackingAPIURL escapedSlashRequest = trackingAPIURL ∧
      cdnURL ≠ trackingAPIURL := by
  decide

theorem selectTarget_eq (cdn trackingAPI : URL) (req : Request) :
    (HasCDNPrefix req.URL.String → selectTarget cdn trackingAPI req = cdn) ∧
      (¬ HasCDNPrefix req.URL.String → selectTarget cdn trackingAPI req = trackingAPI) := by
  unfold HasCDNPrefix selectTarget
  simp only [← hasPrefix_iff]
  constructor
  · intro h
    rw [if_pos (by simpa [or_assoc] using h)]
  · intro h
    rw [if_neg (by simpa [and_assoc] using h)]

theorem hasCDNPrefix_string_iff_hier (u : URL) :
    HasCDNPrefix u.String ↔ HasCDNPrefix u.hierString := by
  unfold HasCDNPrefix
  simp only [← List.isPrefixOf_iff_prefix]
  rw [isPrefixOf_string u _ (by decide) (by decide), isPrefixOf_string u _ (by decide) (by decide),
    isPrefixOf_string u _ (by decide) (by decide)]

/-- C1 (amended): the director selects the CDN origin if the string form of the
request URL (`req.URL.String()`) starts with `/v1/projects`, `/a.js/v1` or
`/analytics.js/v1`, and the Tracking-API origin otherwise; the selection is total
and a function of that string alone; it does not depend on the query; and for a
request in origin form (empty scheme, opaque part, user and host) without a raw
path it is decided by the path: the CDN origin if the path starts with one of the
three prefixes, the Tracking-API origin otherwise. -/
theorem selectTarget_by_url_string (cdn trackingAPI : URL) (req : Request) :
    ((HasCDNPrefix req.URL.String → selectTarget cdn trackingAPI req = cdn) ∧
      (¬ HasCDNPrefix req.URL.String → selectTarget cdn trackingAPI req = trackingAPI)) ∧
    (∀ req2 : Request, req2.URL.String = req.URL.String →
      selectTarget cdn trackingAPI req2 = selectTarget cdn trackingAPI req) ∧
    (∀ (q : Str) (fq : Bool),
      selectTarget cdn trackingAPI
          { req with URL := { req.URL with RawQuery := q, ForceQuery := fq } }
        = selectTarget cdn trackingAPI req) ∧
    (req.URL.Scheme = [] → req.URL.Opaque = [] → req.URL.User = none → req.URL.Host = [] →
      req.URL.RawPath = [] →
      (HasCDNPrefix req.URL.Path → selectTarget cdn trackingAPI req = cdn) ∧
        (¬ HasCDNPrefix req.URL.Path → selectTarget cdn trackingAPI req = trackingAPI)) := by
  refine ⟨selectTarget_eq cdn trackingAPI req, ?_, ?_, ?_⟩
  · intro req2 h
    simp only [selectTarget, h]
  · intro q fq
    have hier : ({ req.URL with RawQuery := q, ForceQuery := fq } : URL).hierString
        = req.URL.hierString := rfl
    have e : ∀ pre : Str, '?' ∉ pre → '#' ∉ pre →
        HasPrefix ({ req.URL with RawQuery := q, ForceQuery := fq } : URL).String pre
          = HasPrefix req.URL.String pre := by
      intro pre h1 h2
      simp only [HasPrefix]
      rw [isPrefixOf_string _ pre h1 h2, isPrefixOf_string _ pre h1 h2, hier]
    simp only [selectTarget, e _ (by decide : '?' ∉ "/v1/projects".toList) (by decide),
      e _ (by decide : '?' ∉ "/a.js/v1".toList) (by decide),
      e _ (by decide : '?' ∉ "/analytics.js/v1".toList) (by decide)]
  · intro hs ho hu hh hr
    have e : HasCDNPrefix req.URL.String ↔ HasCDNPrefix req.URL.Path := by
      rw [hasCDNPrefix_string_iff_hier]
      unfold HasCDNPrefix
      simp only [← List.isPrefixOf_iff_prefix]
      rw [isPrefixOf_origin_form _ _ plainPathPrefix_projects hs ho hu hh hr,
        isPrefixOf_origin_form _ _ plainPathPrefix_ajs hs ho hu hh hr,
        isPrefixOf_origin_form _ _ plainPathPrefix_analytics hs ho hu hh hr]
    rw [← e]
    exact selectTarget_eq cdn trackingAPI req

/-- The witness of C1 (amended): the origin-form request for `/v1/projects/x` is
given the CDN origin, by its path. -/
theorem selectTarget_by_url_string_witness :
    HasCDNPrefix originFormRequest.URL.Path ∧
      selectTarget cdnURL trackingAPIURL originFormRequest = cdnURL :=
  ⟨Or.inl (by decide),
    ((selectTarget_by_url_string cdnURL trackingAPIURL originFormRequest).2.2.2
      rfl rfl rfl rfl rfl).1 (Or.inl (by decide))⟩

/-! ## `strconv.Itoa` writes the decimal digits -/

theorem toDigitsCore_append :
    ∀ (f n : Nat) (ds : List Char),
      Nat.toDigitsCore 10 f n ds = Nat.toDigitsCore 10 f n [] ++ ds := by
  intro f
  induction f with
  | zero => intro n ds; simp [Nat.toDigitsCore]
  | succ f ih =>
    intro n ds
    simp only [Nat.toDigitsCore]
    by_cases h : n / 10 = 0
    · simp [h]
    · rw [if_neg h, if_neg h, ih (n / 10) (_ :: ds), ih (n / 10) [_]]
      simp

theorem decimalValue_append_singleton (l : Str) (c : Char) :
    decimalValue (l ++ [c]) = 10 * decimalValue l + (c.toNat - '0'.toNat) := by
  simp [decimalValue, List.foldl_append]

theorem digitChar_value (k : Nat) (h : k < 10) :
    (Nat.digitChar k).toNat - '0'.toNat = k ∧ (Nat.digitChar k).isDigit = true := by
  interval_cases k <;> decide

theorem decimalValue_toDigitsCore :
    ∀ (f n : Nat), n < f → decimalValue (Nat.toDigitsCore 10 f n []) = n ∧
      ∀ c ∈ Nat.toDigitsCore 10 f n [], c.isDigit = true := by
  intro f
  induction f with
  | zero => intro n h; omega
  | succ f ih =>
    intro n hn
    have hd := digitChar_value (n % 10) (Nat.mod_lt _ (by decide))
    simp only [Nat.toDigitsCore]
    by_cases h : n / 10 = 0
    · rw [if_pos h]
      have hlt : n < 10 := by omega
      refine ⟨?_, ?_⟩
      · simp only [decimalValue, List.foldl_cons, List.foldl_nil]
        omega
      · intro c hc
        simp only [List.mem_singleton] at hc
        rw [hc]; exact hd.2
    · rw [if_neg h, toDigitsCore_append]
      obtain ⟨h1, h2⟩ := ih (n / 10) (by omega)
      refine ⟨?_, ?_⟩
      · rw [decimalValue_append_singleton, h1]
        omega
      · intro c hc
        simp only [List.mem_append, List.mem_singleton] at hc
        rcases hc with hc | hc
        · exact h2 c hc
        · rw [hc]; exact hd.2

theorem itoa_decimal (n : Nat) :
    decimalValue (Itoa (n : Int)) = n ∧ ∀ c ∈ Itoa (n : Int), c.isDigit = true := by
  have h : ¬ ((n : Int) < 0) := by omega
  simp only [Itoa, h, if_false, Int.toNat_ofNat, Nat.toDigits]
  exact decimalValue_toDigitsCore (n + 1) n (by omega)

/-! ## The response transform -/

theorem frameGzip_lawful : frameGzip.Lawful := by
  intro p
  exact ⟨'\x1f' :: '\x8b' :: p, rfl, rfl, rfl⟩

theorem responseTransform_qualifies (G : GzipLib) (customHost : Str) (resp : Response)
    (hq : Qualifies customHost resp) :
    responseTransform G customHost resp = rewriteJs G customHost resp := by
  obtain ⟨h1, h2, h3⟩ := hq
  simp only [responseTransform, modifyResponseHook, h1, ne_eq, not_false_eq_true, if_true, h2,
    Bool.not_true, Bool.false_eq_true, if_false, h3, not_true_eq_false]

theorem director_host_configured (req : Request) :
    (director cdnURL trackingAPIURL req).Host = "cdn.segment.com".toList ∨
      (director cdnURL trackingAPIURL req).Host = "api.segment.io".toList := by
  have h : (director cdnURL trackingAPIURL req).Host
      = (selectTarget cdnURL trackingAPIURL req).Host := rfl
  rw [h]
  unfold selectTarget
  split
  · exact Or.inl rfl
  · exact Or.inr rfl

/-- C3: the response transform returns the response as it was received (body,
content length, headers and every other field, and no error) whenever the
replacement host is empty, or the host of the response's request fails the test
of line 73, or the status is not 200; for the responses the proxy of `main` sees,
whose request is an output of the director under the configured upstreams, the
host fails that test whenever it is not `cdn.segment.com`; and `rewriteJs` is
run exactly in the remaining case, when all three conditions hold. -/
theorem responseTransform_passthrough (G : GzipLib) (customHost : Str) (resp : Response) :
    (customHost = [] ∨ HasPrefix resp.Request.Host "cdn.segment.com".toList = false ∨
        resp.StatusCode ≠ StatusOK →
      responseTransform G customHost resp = (resp, none)) ∧
    (∀ req : Request, resp.Request = director cdnURL trackingAPIURL req →
      resp.Request.Host ≠ "cdn.segment.com".toList →
      responseTransform G customHost resp = (resp, none)) ∧
    (Qualifies customHost resp →
      responseTransform G customHost resp = rewriteJs G customHost resp) := by
  have key : customHost = [] ∨ HasPrefix resp.Request.Host "cdn.segment.com".toList = false ∨
      resp.StatusCode ≠ StatusOK → responseTransform G customHost resp = (resp, none) := by
    intro h
    by_cases h1 : customHost = []
    · simp only [responseTransform, modifyResponseHook, h1, ne_eq, not_true_eq_false, if_false]
    · by_cases h2 : HasPrefix resp.Request.Host "cdn.segment.com".toList = false
      · simp only [responseTransform, modifyResponseHook, h1, ne_eq, not_false_eq_true, if_true,
          h2, Bool.not_false]
      · have h3 : resp.StatusCode ≠ StatusOK := by
          rcases h with h | h | h
          · exact absurd h h1
          · exact absurd h h2
          · exact h
        have h2t : HasPrefix resp.Request.Host "cdn.segment.com".toList = true := by
          simpa using h2
        simp only [responseTransform, modifyResponseHook, h1, ne_eq, not_false_eq_true, if_true,
          h2t, Bool.not_true, Bool.false_eq_true, if_false, h3]
  refine ⟨key, ?_, responseTransform_qualifies G customHost resp⟩
  intro req hreq hhost
  apply key
  refine Or.inr (Or.inl ?_)
  rw [hreq] at hhost ⊢
  rcases director_host_configured req with h | h
  · exact absurd h hhost
  · rw [h]; decide

/-- The witness of C3: an empty replacement host, a response of the Tracking-API
origin, and a status 404 each leave the response as it is; a qualifying response
is handed to `rewriteJs`. -/
theorem responseTransform_passthrough_witness :
    responseTransform frameGzip [] (cdnResponse sampleScript true)
        = (cdnResponse sampleScript true, none) ∧
      (trackingResponse sampleScript).Request.Host ≠ "cdn.segment.com".toList ∧
      responseTransform frameGzip sampleHost (trackingResponse sampleScript)
        = (trackingResponse sampleScript, none) ∧
      responseTransform frameGzip sampleHost { cdnResponse sampleScript true with StatusCode := 404 }
        = ({ cdnResponse sampleScript true with StatusCode := 404 }, none) ∧
      responseTransform frameGzip sampleHost (cdnResponse sampleScript true)
        = rewriteJs frameGzip sampleHost (cdnResponse sampleScript true) :=
  ⟨(responseTransform_passthrough frameGzip [] (cdnResponse sampleScript true)).1 (Or.inl rfl),
    by decide,
    (responseTransform_passthrough frameGzip sampleHost (trackingResponse sampleScript)).2.1
      (getRequest { URL.empty with Path := "/v1/track".toList }) rfl (by decide),
    (responseTransform_passthrough frameGzip sampleHost
      { cdnResponse sampleScript true with StatusCode := 404 }).1 (Or.inr (Or.inr (by decide))),
    (responseTransform_passthrough frameGzip sampleHost (cdnResponse sampleScript true)).2.2
      ⟨by decide, by decide, by decide⟩⟩

/-- C2: for a qualifying response whose body is delivered and closed without
error: if the body was not delivered uncompressed and is a gzip stream with
content `c`, `rewriteJs` succeeds and leaves a body that is again a gzip stream,
with content `c` in which every non-overlapping occurrence of `api.segment.io`,
scanned left to right, is replaced by the replacement host; if the transport
delivered the body uncompressed with content `c`, `rewriteJs` succeeds and the
new body is exactly that replaced content, uncompressed. -/
theorem rewriteJs_roundtrip (G : GzipLib) (hG : G.Lawful) (customHost : Str) (resp : Response)
    (c : Str) (hq : Qualifies customHost resp) (hread : resp.Body.readErr = none)
    (hclose : resp.Body.closeErr = none) :
    (resp.Uncompressed = false → G.Decompresses resp.Body.data c →
      ∃ (out : Response) (t : Str),
        responseTransform G customHost resp = (out, none) ∧
        rewriteJs G customHost resp = (out, none) ∧
        ReplacedAll apiHost customHost c t ∧ (∀ t2, ReplacedAll apiHost customHost c t2 → t2 = t) ∧
        out.Uncompressed = false ∧ out.Body.readErr = none ∧ G.Decompresses out.Body.data t) ∧
    (resp.Uncompressed = true → resp.Body.data = c →
      ∃ (out : Response) (t : Str),
        responseTransform G customHost resp = (out, none) ∧
        rewriteJs G customHost resp = (out, none) ∧
        ReplacedAll apiHost customHost c t ∧ (∀ t2, ReplacedAll apiHost customHost c t2 → t2 = t) ∧
        out.Uncompressed = true ∧ out.Body.readErr = none ∧ out.Body.data = t) := by
  have hspec : ReplacedAll apiHost customHost c (bytesReplace c apiHost customHost (-1)) :=
    (bytesReplace_replacedAll c apiHost customHost (by decide) _).mpr rfl
  have huniq : ∀ t2, ReplacedAll apiHost customHost c t2 →
      t2 = bytesReplace c apiHost customHost (-1) :=
    fun t2 h => (bytesReplace_replacedAll c apiHost customHost (by decide) t2).mp h
  rw [responseTransform_qualifies G customHost resp hq]
  refine ⟨?_, ?_⟩
  · intro hu hdec
    obtain ⟨z, hz1, hz2, hz3⟩ := hG (bytesReplace c apiHost customHost (-1))
    have hz1b : G.Write (bytesReplace c "api.segment.io".toList customHost (-1)) = .ok z := hz1
    have hrun : rewriteJs G customHost resp = (withNewBody resp z, none) := by
      simp only [rewriteJs, hu, hread, hdec.1, hdec.2, hclose, Bool.false_eq_true, if_false,
        Bool.not_false, if_true, hz1b, withNewBody]
    exact ⟨withNewBody resp z, bytesReplace c apiHost customHost (-1), hrun, hrun, hspec, huniq,
      hu, rfl, hz2, hz3⟩
  · intro hu hc
    have hrun : rewriteJs G customHost resp
        = (withNewBody resp (bytesReplace c apiHost customHost (-1)), none) := by
      simp only [rewriteJs, hu, Body.ReadAll, hread, hclose, if_true, Bool.not_true,
        Bool.false_eq_true, if_false, hc, withNewBody, apiHost]
    exact ⟨withNewBody resp (bytesReplace c apiHost customHost (-1)),
      bytesReplace c apiHost customHost (-1), hrun, hrun, hspec, huniq, hu, rfl, rfl⟩

/-- The witness of C2: a compressed and an uncompressed CDN response with the
script `sampleScript`, replacement host `proxy.example.com`. -/
theorem rewriteJs_roundtrip_witness :
    (Qualifies sampleHost (cdnResponse sampleGzipBody false) ∧
      frameGzip.Decompresses (cdnResponse sampleGzipBody false).Body.data sampleScript ∧
      ∃ (out : Response) (t : Str),
        responseTransform frameGzip sampleHost (cdnResponse sampleGzipBody false) = (out, none) ∧
        rewriteJs frameGzip sampleHost (cdnResponse sampleGzipBody false) = (out, none) ∧
        ReplacedAll apiHost sampleHost sampleScript t ∧
        (∀ t2, ReplacedAll apiHost sampleHost sampleScript t2 → t2 = t) ∧
        out.Uncompressed = false ∧ out.Body.readErr = none ∧
        frameGzip.Decompresses out.Body.data t) ∧
    (rewriteJs frameGzip sampleHost (cdnResponse sampleScript true)).1.Body.data
      = "load(proxy.example.com/v1); retry(proxy.example.com)".toList :=
  ⟨⟨⟨by decide, by decide, by decide⟩, ⟨rfl, rfl⟩,
      (rewriteJs_roundtrip frameGzip frameGzip_lawful sampleHost (cdnResponse sampleGzipBody false)
        sampleScript ⟨by decide, by decide, by decide⟩ rfl rfl).1 rfl ⟨rfl, rfl⟩⟩,
    by decide⟩

/-- C4: after a successful run of `rewriteJs`, `ContentLength` is the number of
bytes of the new body and the `Content-Length` header holds, as its only value,
that number written in decimal digits; the new body is the recompressed bytes
when the body was compressed and the rewritten bytes otherwise. -/
theorem rewriteJs_content_length (G : GzipLib) (customHost : Str) (resp out : Response)
    (h : rewriteJs G customHost resp = (out, none)) :
    out.ContentLength = (out.Body.data.length : Int) ∧
      out.Header "Content-Length".toList = some [Itoa out.Body.data.length] ∧
      out.Header.Get "Content-Length".toList = Itoa out.Body.data.length ∧
      decimalValue (out.Header.Get "Content-Length".toList) = out.Body.data.length ∧
      (∀ c ∈ out.Header.Get "Content-Length".toList, c.isDigit = true) ∧
      out.Body = nopCloser out.Body.data ∧
      ∃ content : Str,
        (resp.Uncompressed = true → resp.Body.ReadAll = .ok content ∧
          out.Body.data = bytesReplace content apiHost customHost (-1)) ∧
        (resp.Uncompressed = false →
          G.ReadAll resp.Body.data resp.Body.readErr = .ok content ∧
          G.Write (bytesReplace content apiHost customHost (-1)) = .ok out.Body.data) := by
  have fin : ∀ bytes : Str, out = withNewBody resp bytes →
      out.ContentLength = (out.Body.data.length : Int) ∧
      out.Header "Content-Length".toList = some [Itoa out.Body.data.length] ∧
      out.Header.Get "Content-Length".toList = Itoa out.Body.data.length ∧
      decimalValue (out.Header.Get "Content-Length".toList) = out.Body.data.length ∧
      (∀ c ∈ out.Header.Get "Content-Length".toList, c.isDigit = true) ∧
      out.Body = nopCloser out.Body.data ∧ out.Body.data = bytes := by
    intro bytes hb
    subst hb
    have hget : (withNewBody resp bytes).Header.Get "Content-Length".toList
        = Itoa (bytes.length : Int) := by
      simp [withNewBody, Header.Get, Header.Set]
    refine ⟨rfl, ?_, hget, ?_, ?_, rfl, rfl⟩
    · simp [withNewBody, Header.Set, nopCloser]
    · rw [hget]; exact (itoa_decimal bytes.length).1
    · rw [hget]; exact (itoa_decimal bytes.length).2
  obtain ⟨sc, hd, bd, cl, un, rq⟩ := resp
  cases un with
  | true =>
    cases hr : bd.ReadAll with
    | error e =>
      simp only [rewriteJs, hr, if_true] at h
      exact absurd (congrArg Prod.snd h) (by simp)
    | ok content =>
      cases hc : bd.closeErr with
      | some e =>
        simp only [rewriteJs, hr, hc, if_true] at h
        exact absurd (congrArg Prod.snd h) (by simp)
      | none =>
        have ho : out = withNewBody ⟨sc, hd, bd, cl, true, rq⟩
            (bytesReplace content apiHost customHost (-1)) := by
          simp only [rewriteJs, hr, hc, if_true, Bool.not_true, Bool.false_eq_true,
            if_false] at h
          exact (congrArg Prod.fst h).symm
        obtain ⟨h1, h2, h3, h4, h5, h6, h7⟩ := fin _ ho
        exact ⟨h1, h2, h3, h4, h5, h6, content, fun _ => ⟨rfl, h7⟩,
          fun hf => Bool.noConfusion hf⟩
  | false =>
    cases hn : G.NewReader bd.data bd.readErr with
    | some e =>
      simp only [rewriteJs, hn, Bool.false_eq_true, if_false] at h
      exact absurd (congrArg Prod.snd h) (by simp)
    | none =>
      cases hr : G.ReadAll bd.data bd.readErr with
      | error e =>
        simp only [rewriteJs, hn, hr, Bool.false_eq_true, if_false] at h
        exact absurd (congrArg Prod.snd h) (by simp)
      | ok content =>
        cases hc : bd.closeErr with
        | some e =>
          simp only [rewriteJs, hn, hr, hc, Bool.false_eq_true, if_false] at h
          exact absurd (congrArg Prod.snd h) (by simp)
        | none =>
          cases hw : G.Write (bytesReplace content "api.segment.io".toList customHost (-1)) with
          | error e =>
            simp only [rewriteJs, hn, hr, hc, hw, Bool.false_eq_true, if_false,
              Bool.not_false, if_true] at h
            exact absurd (congrArg Prod.snd h) (by simp)
          | ok z =>
            have ho : out = withNewBody ⟨sc, hd, bd, cl, false, rq⟩ z := by
              simp only [rewriteJs, hn, hr, hc, hw, Bool.false_eq_true, if_false,
                Bool.not_false, if_true] at h
              exact (congrArg Prod.fst h).symm
            obtain ⟨h1, h2, h3, h4, h5, h6, h7⟩ := fin _ ho
            refine ⟨h1, h2, h3, h4, h5, h6, content, fun hf => Bool.noConfusion hf,
              fun _ => ⟨rfl, ?_⟩⟩
            rw [h7]
            exact hw

/-- The witness of C4: the compressed CDN response with the script `sampleScript`
is rewritten to a body of 54 bytes, and both `ContentLength` and the
`Content-Length` header say so. -/
theorem rewriteJs_content_length_witness :
    rewriteJs frameGzip sampleHost (cdnResponse sampleGzipBody false)
        = ((rewriteJs frameGzip sampleHost (cdnResponse sampleGzipBody false)).1, none) ∧
      (rewriteJs frameGzip sampleHost (cdnResponse sampleGzipBody false)).1.Body.data.length = 54 ∧
      Itoa 54 = "54".toList ∧
      (rewriteJs frameGzip sampleHost (cdnResponse sampleGzipBody false)).1.ContentLength
        = ((rewriteJs frameGzip sampleHost
            (cdnResponse sampleGzipBody false)).1.Body.data.length : Int) ∧
      (rewriteJs frameGzip sampleHost (cdnResponse sampleGzipBody false)).1.Header.Get
          "Content-Length".toList
        = Itoa (rewriteJs frameGzip sampleHost
            (cdnResponse sampleGzipBody false)).1.Body.data.length :=
  ⟨rfl, by decide, by decide,
    (rewriteJs_content_length frameGzip sampleHost (cdnResponse sampleGzipBody false) _ rfl).1,
    (rewriteJs_content_length frameGzip sampleHost (cdnResponse sampleGzipBody false) _ rfl).2.2.1⟩

/-! ## The director under the upstreams of `main` -/

theorem configured_target (req : Request) :
    (selectTarget cdnURL trackingAPIURL req).Path = [] ∧
      (selectTarget cdnURL trackingAPIURL req).RawQuery = [] := by
  unfold selectTarget
  split <;> exact ⟨rfl, rfl⟩

theorem singleJoiningSlash_nil (b : Str) (h : HasPrefix b "/".toList = true) :
    singleJoiningSlash [] b = b := by
  have ha : HasSuffix [] "/".toList = false := by decide
  simp only [singleJoiningSlash, ha, h, Bool.false_and, Bool.false_eq_true, if_false,
    Bool.not_false, Bool.not_true, Bool.and_false, List.nil_append]

/-- C14: with the upstreams of `main`, the host test of line 73 passes for the
request the director produced exactly when the director selected the CDN origin
for it; hence a response to a request that was routed to the Tracking-API origin
is never rewritten: the response transform returns it as received. -/
theorem gate_iff_cdn_selected (G : GzipLib) (customHost : Str) (req : Request) :
    (HasPrefix (director cdnURL trackingAPIURL req).Host "cdn.segment.com".toList = true ↔
        selectTarget cdnURL trackingAPIURL req = cdnURL) ∧
      ∀ resp : Response, resp.Request = director cdnURL trackingAPIURL req →
        selectTarget cdnURL trackingAPIURL req = trackingAPIURL →
        responseTransform G customHost resp = (resp, none) := by
  have hhost : (director cdnURL trackingAPIURL req).Host
      = (selectTarget cdnURL trackingAPIURL req).Host := rfl
  refine ⟨?_, ?_⟩
  · rw [hhost]
    unfold selectTarget
    split
    · exact ⟨fun _ => rfl, fun _ => by decide⟩
    · exact ⟨fun h => absurd h (by decide), fun h => absurd h (by decide)⟩
  · intro resp hreq hsel
    have hfail : HasPrefix resp.Request.Host "cdn.segment.com".toList = false := by
      rw [hreq, hhost, hsel]; decide
    by_cases h1 : customHost = []
    · simp only [responseTransform, modifyResponseHook, h1, ne_eq, not_true_eq_false, if_false]
    · simp only [responseTransform, modifyResponseHook, h1, ne_eq, not_false_eq_true, if_true,
        hfail, Bool.not_false]

/-- The witness of C14: the request `GET /v1/track` is routed to the
Tracking-API origin, and the response to it is returned as received. -/
theorem gate_iff_cdn_selected_witness :
    selectTarget cdnURL trackingAPIURL (getRequest { URL.empty with Path := "/v1/track".toList })
        = trackingAPIURL ∧
      responseTransform frameGzip sampleHost (trackingResponse sampleScript)
        = (trackingResponse sampleScript, none) :=
  ⟨by decide,
    (gate_iff_cdn_selected frameGzip sampleHost
      (getRequest { URL.empty with Path := "/v1/track".toList })).2
      (trackingResponse sampleScript) rfl (by decide)⟩

theorem pathAlias_no_alias (p : Str) : HasPrefix (pathAlias p) "/a.js/v1".toList = false := by
  cases hp : HasPrefix p "/a.js/v1".toList with
  | false =>
    simp only [pathAlias, hp, Bool.false_eq_true, if_false]
  | true =>
    obtain ⟨r, hr⟩ := (hasPrefix_iff _ _).mp hp
    have h := stringsReplace_one_leftmost "/a.js/v1".toList "/analytics.js/v1".toList
      (by decide) (by decide) [] r (by decide)
    simp only [List.nil_append] at h
    simp only [pathAlias, hp, if_true, ← hr, h]
    simp [HasPrefix, List.isPrefixOf]

theorem alias_not_recreated (u v : Str)
    (h : HasPrefix (u ++ "a.min.js".toList ++ v) "/a.js/v1".toList = false) :
    HasPrefix (u ++ "analytics.min.js".toList ++ v) "/a.js/v1".toList = false := by
  rcases u with _ | ⟨c0, _ | ⟨c1, _ | ⟨c2, _ | ⟨c3, _ | ⟨c4, _ | ⟨c5, _ | ⟨c6, _ | ⟨c7, u⟩⟩⟩⟩⟩⟩⟩⟩ <;>
    simp [HasPrefix, List.isPrefixOf] at h ⊢
  exact h

theorem filenameAlias_no_alias (p : Str) (hp : HasPrefix p "/a.js/v1".toList = false) :
    HasPrefix (filenameAlias p) "/a.js/v1".toList = false := by
  cases hs : HasSuffix p "a.min.js".toList with
  | false =>
    simp only [filenameAlias, hs, Bool.false_eq_true, if_false, hp]
  | true =>
    obtain ⟨u, v, huv, hno⟩ :=
      leftmost_exists "a.min.js".toList (by decide) p ((hasSuffix_iff _ _).mp hs).isInfix
    have h := stringsReplace_one_leftmost "a.min.js".toList "analytics.min.js".toList
      (by decide) (by decide) u v hno
    simp only [filenameAlias, hs, if_true]
    rw [huv, h]
    rw [huv] at hp
    exact alias_not_recreated u v hp

/-- C15: for every pair of upstreams (every target base path) and every request,
the path the director sends upstream does not start with `/a.js/v1`: the path
alias step leaves no path that starts with it, and the filename alias step,
applied to a path that does not start with it, returns a path that does not
start with it either. -/
theorem director_path_no_alias (cdn trackingAPI : URL) (req : Request) (p : Str) :
    HasPrefix (director cdn trackingAPI req).URL.Path "/a.js/v1".toList = false ∧
      HasPrefix (pathAlias p) "/a.js/v1".toList = false ∧
      (HasPrefix p "/a.js/v1".toList = false →
        HasPrefix (filenameAlias p) "/a.js/v1".toList = false) := by
  refine ⟨?_, pathAlias_no_alias p, filenameAlias_no_alias p⟩
  rw [director_path]
  exact filenameAlias_no_alias _ (pathAlias_no_alias _)

/-- The witness of C15: `/a.min.js`, which does not start with `/a.js/v1`, is
rewritten by the filename alias step to a path that does not start with it. -/
theorem director_path_no_alias_witness :
    HasPrefix "/a.min.js".toList "/a.js/v1".toList = false ∧
      HasPrefix (filenameAlias "/a.min.js".toList) "/a.js/v1".toList = false :=
  ⟨by decide,
    (director_path_no_alias cdnURL trackingAPIURL originFormRequest "/a.min.js".toList).2.2
      (by decide)⟩

/-- C11 as stated fails: `GET /bundle/a.min.js` has a path that starts with `/`
and with none of the three prefixes, is routed to the Tracking-API origin, and is
sent upstream with the path `/bundle/analytics.min.js`. -/
theorem director_not_transparent :
    HasPrefix bundleRequest.URL.Path "/".toList = true ∧
      HasPrefix bundleRequest.URL.Path "/v1/projects".toList = false ∧
      HasPrefix bundleRequest.URL.Path "/a.js/v1".toList = false ∧
      HasPrefix bundleRequest.URL.Path "/analytics.js/v1".toList = false ∧
      selectTarget cdnURL trackingAPIURL bundleRequest = trackingAPIURL ∧
      (director cdnURL trackingAPIURL bundleRequest).URL.Path = "/bundle/analytics.min.js".toList ∧
      (director cdnURL trackingAPIURL bundleRequest).URL.Path ≠ bundleRequest.URL.Path := by
  decide

/-- C11 (amended): with the upstreams of `main`, for every request the outbound
query equals the inbound query, and for every request whose path starts with
`/`, starts with none of `/v1/projects`, `/a.js/v1`, `/analytics.js/v1` and does
not end with `a.min.js`, the outbound path equals the inbound path. -/
theorem director_transparent (req : Request) :
    (director cdnURL trackingAPIURL req).URL.RawQuery = req.URL.RawQuery ∧
      (HasPrefix req.URL.Path "/".toList = true → ¬ HasCDNPrefix req.URL.Path →
        HasSuffix req.URL.Path "a.min.js".toList = false →
        (director cdnURL trackingAPIURL req).URL.Path = req.URL.Path) := by
  obtain ⟨hp, hq⟩ := configured_target req
  refine ⟨?_, ?_⟩
  · have h : (director cdnURL trackingAPIURL req).URL.RawQuery
        = mergeQuery (selectTarget cdnURL trackingAPIURL req).RawQuery req.URL.RawQuery := rfl
    rw [h, hq]
    simp [mergeQuery]
  · intro h1 h2 h3
    have hno : HasPrefix req.URL.Path "/a.js/v1".toList = false := by
      cases h : HasPrefix req.URL.Path "/a.js/v1".toList with
      | false => rfl
      | true => exact absurd (Or.inr (Or.inl ((hasPrefix_iff _ _).mp h))) h2
    rw [director_path, hp, singleJoiningSlash_nil _ h1]
    simp only [pathAlias, hno, Bool.false_eq_true, if_false, filenameAlias, h3]

/-- The witness of C11 (amended): `GET /v1/track?b=2` is sent upstream with its
path and its query. -/
theorem director_transparent_witness :
    (director cdnURL trackingAPIURL
        (getRequest { URL.empty with Path := "/v1/track".toList, RawQuery := "b=2".toList })).URL.Path
        = "/v1/track".toList ∧
      (director cdnURL trackingAPIURL
        (getRequest { URL.empty with Path := "/v1/track".toList, RawQuery := "b=2".toList })).URL.RawQuery
        = "b=2".toList :=
  ⟨(director_transparent
        (getRequest { URL.empty with Path := "/v1/track".toList, RawQuery := "b=2".toList })).2
      (by decide) (by unfold HasCDNPrefix; decide) (by decide),
    (director_transparent
        (getRequest { URL.empty with Path := "/v1/track".toList, RawQuery := "b=2".toList })).1⟩

theorem selectTarget_origin_form (cdn trackingAPI : URL) (req : Request)
    (hs : req.URL.Scheme = []) (ho : req.URL.Opaque = []) (hu : req.URL.User = none)
    (hh : req.URL.Host = []) (hr : req.URL.RawPath = []) (hp : HasCDNPrefix req.URL.Path) :
    selectTarget cdn trackingAPI req = cdn := by
  have e : HasCDNPrefix req.URL.String ↔ HasCDNPrefix req.URL.Path := by
    rw [hasCDNPrefix_string_iff_hier]
    unfold HasCDNPrefix
    simp only [← List.isPrefixOf_iff_prefix]
    rw [isPrefixOf_origin_form _ _ plainPathPrefix_projects hs ho hu hh hr,
      isPrefixOf_origin_form _ _ plainPathPrefix_ajs hs ho hu hh hr,
      isPrefixOf_origin_form _ _ plainPathPrefix_analytics hs ho hu hh hr]
  exact (selectTarget_eq cdn trackingAPI req).1 (e.mpr hp)

/-- C16 as stated fails: for `GET http://proxy.example.com/a.js/v1/k/x.js`, with
the upstreams of `main` (empty base paths), the joined path starts with
`/a.js/v1` and is rewritten to `/analytics.js/v1/k/x.js`, while the selected
target is the Tracking-API origin. -/
theorem alias_without_cdn :
    cdnURL.Path = [] ∧ trackingAPIURL.Path = [] ∧
      HasPrefix
        (singleJoiningSlash (selectTarget cdnURL trackingAPIURL absoluteAliasRequest).Path
          absoluteAliasRequest.URL.Path) "/a.js/v1".toList = true ∧
      (director cdnURL trackingAPIURL absoluteAliasRequest).URL.Path
        = "/analytics.js/v1/k/x.js".toList ∧
      selectTarget cdnURL trackingAPIURL absoluteAliasRequest = trackingAPIURL ∧
      (director cdnURL trackingAPIURL absoluteAliasRequest).Host = "api.segment.io".toList ∧
      trackingAPIURL ≠ cdnURL := by
  decide

/-- C16 (amended): with empty target base paths, for every request in origin form
(empty URL scheme, opaque part, user and host) that has no raw path and whose
path starts with `/`, whenever the path alias step fires (the joined path starts
with `/a.js/v1`), the target the director selected is the CDN origin. -/
theorem alias_implies_cdn (cdn trackingAPI : URL) (req : Request)
    (hc : cdn.Path = []) (ht : trackingAPI.Path = [])
    (hs : req.URL.Scheme = []) (ho : req.URL.Opaque = []) (hu : req.URL.User = none)
    (hh : req.URL.Host = []) (hr : req.URL.RawPath = [])
    (hslash : HasPrefix req.URL.Path "/".toList = true)
    (hfire : HasPrefix
      (singleJoiningSlash (selectTarget cdn trackingAPI req).Path req.URL.Path)
      "/a.js/v1".toList = true) :
    selectTarget cdn trackingAPI req = cdn ∧
      (director cdn trackingAPI req).URL.Path
        = filenameAlias ("/analytics.js/v1".toList ++ req.URL.Path.drop 8) := by
  have hbase : (selectTarget cdn trackingAPI req).Path = [] := by
    unfold selectTarget
    split
    · exact hc
    · exact ht
  rw [hbase, singleJoiningSlash_nil _ hslash] at hfire
  refine ⟨?_, ?_⟩
  · exact selectTarget_origin_form cdn trackingAPI req hs ho hu hh hr
      (Or.inr (Or.inl ((hasPrefix_iff _ _).mp hfire)))
  · obtain ⟨r, hr2⟩ := (hasPrefix_iff _ _).mp hfire
    have h := stringsReplace_one_leftmost "/a.js/v1".toList "/analytics.js/v1".toList
      (by decide) (by decide) [] r (by decide)
    simp only [List.nil_append] at h
    have hd : req.URL.Path.drop 8 = r := by
      rw [← hr2]; rfl
    rw [director_path, hbase, singleJoiningSlash_nil _ hslash, hd]
    simp only [pathAlias, hfire, if_true]
    rw [← hr2, h]

/-- The witness of C16 (amended): `GET /a.js/v1/k/x.js` in origin form is given
the CDN origin and the path `/analytics.js/v1/k/x.js`. -/
theorem alias_implies_cdn_witness :
    HasPrefix
        (singleJoiningSlash (selectTarget cdnURL trackingAPIURL originAliasRequest).Path
          originAliasRequest.URL.Path) "/a.js/v1".toList = true ∧
      selectTarget cdnURL trackingAPIURL originAliasRequest = cdnURL ∧
      (director cdnURL trackingAPIURL originAliasRequest).URL.Path
        = filenameAlias ("/analytics.js/v1".toList ++ originAliasRequest.URL.Path.drop 8) :=
  ⟨by decide,
    alias_implies_cdn cdnURL trackingAPIURL originAliasRequest rfl rfl rfl rfl rfl rfl rfl
      (by decide) (by decide)⟩

/-! ## The outcomes of `rewriteJs` -/

theorem rewriteJs_outcome (G : GzipLib) (customHost : Str) (resp : Response) :
    (∃ e, resp.Uncompressed = false ∧ G.NewReader resp.Body.data resp.Body.readErr = some e ∧
        rewriteJs G customHost resp = (resp, some e)) ∨
      (∃ e, ReadAllFailsWith G resp e ∧ rewriteJs G customHost resp = (resp, some e)) ∨
      (∃ c e, ReadsTo G resp c ∧ resp.Body.closeErr = some e ∧
        rewriteJs G customHost resp = (closeBody resp, some e)) ∨
      (∃ c e, ReadsTo G resp c ∧ resp.Body.closeErr = none ∧ resp.Uncompressed = false ∧
        G.Write (bytesReplace c apiHost customHost (-1)) = .error e ∧
        rewriteJs G customHost resp = (closeBody resp, some e)) ∨
      (∃ c z, ReadsTo G resp c ∧ resp.Body.closeErr = none ∧
        ((resp.Uncompressed = true ∧ z = bytesReplace c apiHost customHost (-1)) ∨
          (resp.Uncompressed = false ∧
            G.Write (bytesReplace c apiHost customHost (-1)) = .ok z)) ∧
        rewriteJs G customHost resp = (withNewBody resp z, none)) := by
  obtain ⟨sc, hd, bd, cl, un, rq⟩ := resp
  cases un with
  | true =>
    cases hr : bd.ReadAll with
    | error e =>
      refine Or.inr (Or.inl ⟨e, Or.inl ⟨rfl, hr⟩, ?_⟩)
      simp only [rewriteJs, hr, if_true]
    | ok content =>
      cases hc : bd.closeErr with
      | some e =>
        refine Or.inr (Or.inr (Or.inl ⟨content, e, Or.inl ⟨rfl, hr⟩, rfl, ?_⟩))
        simp only [rewriteJs, hr, hc, if_true, closeBody]
      | none =>
        refine Or.inr (Or.inr (Or.inr (Or.inr
          ⟨content, _, Or.inl ⟨rfl, hr⟩, rfl, Or.inl ⟨rfl, rfl⟩, ?_⟩)))
        simp only [rewriteJs, hr, hc, if_true, Bool.not_true, Bool.false_eq_true, if_false]
        rfl
  | false =>
    cases hn : G.NewReader bd.data bd.readErr with
    | some e =>
      refine Or.inl ⟨e, rfl, rfl, ?_⟩
      simp only [rewriteJs, hn, Bool.false_eq_true, if_false]
    | none =>
      cases hr : G.ReadAll bd.data bd.readErr with
      | error e =>
        refine Or.inr (Or.inl ⟨e, Or.inr ⟨rfl, hn, hr⟩, ?_⟩)
        simp only [rewriteJs, hn, hr, Bool.false_eq_true, if_false]
      | ok content =>
        cases hc : bd.closeErr with
        | some e =>
          refine Or.inr (Or.inr (Or.inl ⟨content, e, Or.inr ⟨rfl, hn, hr⟩, rfl, ?_⟩))
          simp only [rewriteJs, hn, hr, hc, Bool.false_eq_true, if_false, closeBody]
        | none =>
          cases hw : G.Write (bytesReplace content "api.segment.io".toList customHost (-1)) with
          | error e =>
            refine Or.inr (Or.inr (Or.inr (Or.inl
              ⟨content, e, Or.inr ⟨rfl, hn, hr⟩, rfl, rfl, hw, ?_⟩)))
            simp only [rewriteJs, hn, hr, hc, hw, Bool.false_eq_true, if_false,
              Bool.not_false, if_true, closeBody]
          | ok z =>
            refine Or.inr (Or.inr (Or.inr (Or.inr
              ⟨content, z, Or.inr ⟨rfl, hn, hr⟩, rfl, Or.inr ⟨rfl, hw⟩, ?_⟩)))
            simp only [rewriteJs, hn, hr, hc, hw, Bool.false_eq_true, if_false,
              Bool.not_false, if_true]
            rfl

theorem readsTo_not_fails (G : GzipLib) (resp : Response) (c : Str) (h : ReadsTo G resp c)
    (hc : resp.Body.closeErr = none) :
    ¬ (NewReaderFails G resp ∨ ReadAllFails G resp ∨ CloseFails resp) := by
  rintro (⟨h1, h2⟩ | ⟨e, he⟩ | h3)
  · rcases h with ⟨hu, _⟩ | ⟨_, hn, _⟩
    · rw [hu] at h1; exact Bool.noConfusion h1
    · exact h2 hn
  · rcases h with ⟨hu, hr⟩ | ⟨hu, _, hr⟩ <;> rcases he with ⟨hu2, hr2⟩ | ⟨hu2, _, hr2⟩
    · rw [hr] at hr2; exact Except.noConfusion hr2
    · rw [hu] at hu2; exact Bool.noConfusion hu2
    · rw [hu] at hu2; exact Bool.noConfusion hu2
    · rw [hr] at hr2; exact Except.noConfusion hr2
  · exact h3 hc

/-- C13: when the library's writes to the in-memory buffer succeed (as they do:
`GzipLib.Lawful`), `rewriteJs` returns an error exactly when constructing the gzip
reader fails (the body was not delivered uncompressed and is not accepted as a
gzip stream), or reading the body to completion fails, or closing the original
body fails; and on every error return, the headers and the content length of the
response are unchanged and its body is still the original one (closed, when the
error came after the read), not a rewritten one. -/
theorem rewriteJs_error_iff (G : GzipLib) (customHost : Str) (resp : Response) :
    (G.Lawful →
      ((rewriteJs G customHost resp).2 ≠ none ↔
        NewReaderFails G resp ∨ ReadAllFails G resp ∨ CloseFails resp)) ∧
    ((rewriteJs G customHost resp).2 ≠ none →
      (rewriteJs G customHost resp).1.Header = resp.Header ∧
      (rewriteJs G customHost resp).1.ContentLength = resp.ContentLength ∧
      ((rewriteJs G customHost resp).1.Body = resp.Body ∨
        (rewriteJs G customHost resp).1.Body = { resp.Body with closed := true })) := by
  rcases rewriteJs_outcome G customHost resp with
    ⟨e, hu, hn, hrun⟩ | ⟨e, hf, hrun⟩ | ⟨c, e, hr, hc, hrun⟩ | ⟨c, e, hr, hc, hu, hw, hrun⟩ |
    ⟨c, z, hr, hc, _, hrun⟩
  · rw [hrun]
    refine ⟨fun _ => ⟨fun _ => Or.inl ⟨hu, by rw [hn]; simp⟩, fun _ => by simp⟩,
      fun _ => ⟨rfl, rfl, Or.inl rfl⟩⟩
  · rw [hrun]
    refine ⟨fun _ => ⟨fun _ => Or.inr (Or.inl ⟨e, hf⟩), fun _ => by simp⟩,
      fun _ => ⟨rfl, rfl, Or.inl rfl⟩⟩
  · rw [hrun]
    refine ⟨fun _ => ⟨fun _ => Or.inr (Or.inr (by unfold CloseFails; rw [hc]; simp)),
      fun _ => by simp⟩, fun _ => ⟨rfl, rfl, Or.inr rfl⟩⟩
  · rw [hrun]
    refine ⟨fun hG => ?_, fun _ => ⟨rfl, rfl, Or.inr rfl⟩⟩
    obtain ⟨z, hz, _⟩ := hG (bytesReplace c apiHost customHost (-1))
    rw [hz] at hw
    exact Except.noConfusion hw
  · rw [hrun]
    refine ⟨fun _ => ⟨fun h => absurd rfl h, fun h => ?_⟩, fun h => absurd rfl h⟩
    exact absurd h (readsTo_not_fails G resp c hr hc)

/-- The witness of C13: a CDN response whose body was not delivered uncompressed
and is not a gzip stream makes `rewriteJs` return an error and leaves headers,
content length and body as they were. -/
theorem rewriteJs_error_iff_witness :
    NewReaderFails frameGzip (cdnResponse sampleScript false) ∧
      (rewriteJs frameGzip sampleHost (cdnResponse sampleScript false)).2 ≠ none ∧
      (rewriteJs frameGzip sampleHost (cdnResponse sampleScript false)).1.ContentLength
        = (cdnResponse sampleScript false).ContentLength :=
  ⟨⟨rfl, by decide⟩,
    ((rewriteJs_error_iff frameGzip sampleHost (cdnResponse sampleScript false)).1
      frameGzip_lawful).mpr (Or.inl ⟨rfl, by decide⟩),
    ((rewriteJs_error_iff frameGzip sampleHost (cdnResponse sampleScript false)).2
      (by decide)).2.1⟩

/-! ## One pass of the replacement and the occurrences it leaves -/

theorem infix_append_cases (X A B : Str) (h : X <:+: A ++ B) :
    X <:+: A ∨ X <:+: B ∨
      ∃ x1 x2 : Str, x1 ≠ [] ∧ x2 ≠ [] ∧ X = x1 ++ x2 ∧ x1 <:+ A ∧ x2 <+: B := by
  obtain ⟨s, r, hsr⟩ := h
  rcases List.append_eq_append_iff.mp hsr with ⟨a, h1, h2⟩ | ⟨c, h1, h2⟩
  · exact Or.inl ⟨s, a, h1.symm⟩
  · rcases List.append_eq_append_iff.mp h1 with ⟨a2, h3, h4⟩ | ⟨c2, h3, h4⟩
    · by_cases ha : a2 = []
      · subst ha
        refine Or.inr (Or.inl ⟨[], r, ?_⟩)
        rw [h2, h4]; simp
      · by_cases hc : c = []
        · subst hc
          refine Or.inl ⟨s, [], ?_⟩
          rw [h3, h4]; simp
        · exact Or.inr (Or.inr ⟨a2, c, ha, hc, h4, ⟨s, h3.symm⟩, ⟨r, h2.symm⟩⟩)
    · refine Or.inr (Or.inl ⟨c2, r, ?_⟩)
      rw [h2, h4]

theorem overlaps_false (old new : Str) (h : overlaps old new = false) :
    ¬ old <:+: new ∧ ¬ new <:+: old ∧
      (∀ p : Str, p ≠ [] → p <+: new → ¬ p <:+ old) ∧
      (∀ q : Str, q ≠ [] → q <:+ new → ¬ q <+: old) := by
  simp only [overlaps, Bool.or_eq_false_iff] at h
  obtain ⟨⟨⟨h1, h2⟩, h3⟩, h4⟩ := h
  refine ⟨?_, ?_, ?_, ?_⟩
  · apply (index_eq_none_iff new old).mp
    cases hi : Index new old with
    | none => rfl
    | some j => rw [hi] at h1; exact Bool.noConfusion h1
  · apply (index_eq_none_iff old new).mp
    cases hi : Index old new with
    | none => rfl
    | some j => rw [hi] at h2; exact Bool.noConfusion h2
  · intro p hp hpre hsuf
    have := List.any_eq_false.mp h3 p ((List.mem_inits p new).mpr hpre)
    apply this
    have he : p.isEmpty = false := isEmpty_eq_false p hp
    have hs : p.isSuffixOf old = true := List.isSuffixOf_iff_suffix.mpr hsuf
    simp [he, hs]
  · intro q hq hsuf hpre
    have := List.any_eq_false.mp h4 q ((List.mem_tails q new).mpr hsuf)
    apply this
    have he : q.isEmpty = false := isEmpty_eq_false q hq
    have hs : q.isPrefixOf old = true := List.isPrefixOf_iff_prefix.mpr hpre
    simp [he, hs]

theorem no_occurrence_step (old new u t : Str) (hov : overlaps old new = false)
    (hu : ¬ old <:+: u) (ht : ¬ old <:+: t) : ¬ old <:+: u ++ new ++ t := by
  obtain ⟨o1, o2, o3, o4⟩ := overlaps_false old new hov
  intro hin
  rw [List.append_assoc] at hin
  rcases infix_append_cases old u (new ++ t) hin with h | h | ⟨x1, x2, _, hx2, hX, _, hp⟩
  · exact hu h
  · rcases infix_append_cases old new t h with h | h | ⟨y1, y2, hy1, _, hY, hs, _⟩
    · exact o1 h
    · exact ht h
    · exact o4 y1 hy1 hs ⟨y2, hY.symm⟩
  · rcases List.prefix_or_prefix_of_prefix hp (List.prefix_append new t) with h | h
    · exact o3 x2 hx2 h ⟨x1, hX.symm⟩
    · obtain ⟨y, hy⟩ := h
      apply o2
      refine ⟨x1, y, ?_⟩
      rw [hX, ← hy]; simp

theorem replacedAll_no_occurrence (old new : Str) (hov : overlaps old new = false) (s t : Str)
    (h : ReplacedAll old new s t) : ¬ old <:+: t := by
  induction h with
  | done hno => exact hno
  | @step u v t hno _ ih =>
    apply no_occurrence_step old new u t hov ?_ ih
    intro hin
    obtain ⟨a, b, e⟩ := hin
    exact hno ⟨a, b ++ old.dropLast, by rw [← e]; simp⟩

theorem bytesReplace_no_occurrence (old new : Str) (hold : old ≠ [])
    (hov : overlaps old new = false) (s : Str) : ¬ old <:+: bytesReplace s old new (-1) :=
  replacedAll_no_occurrence old new hov s _
    ((bytesReplace_replacedAll s old new hold _).mpr rfl)

/-- C12 as stated fails: with the non-empty replacement host
`api.segment.io.example.com`, one run of `rewriteJs` on the script `sampleScript`
succeeds and leaves a body in which `api.segment.io` occurs. -/
theorem rewriteJs_leaves_occurrence :
    overlappingHost ≠ [] ∧
      (rewriteJs frameGzip overlappingHost (cdnResponse sampleScript true)).2 = none ∧
      (rewriteJs frameGzip overlappingHost (cdnResponse sampleScript true)).1.Body.data
        = "load(api.segment.io.example.com/v1); retry(api.segment.io.example.com)".toList ∧
      apiHost <:+:
        (rewriteJs frameGzip overlappingHost (cdnResponse sampleScript true)).1.Body.data :=
  ⟨by decide, by decide, by decide,
    Classical.not_not.mp fun h => absurd ((index_eq_none_iff _ _).mpr h) (by decide)⟩

/-- C12 (amended): for every response and every replacement host that does not
overlap `api.segment.io` (it neither contains `api.segment.io` nor occurs in it,
so it is non-empty; no non-empty prefix of it is a suffix of `api.segment.io`
and no non-empty suffix of it is a prefix of `api.segment.io`), the rewritten
content `t` that one successful run of `rewriteJs` produces contains no
occurrence of `api.segment.io`; `t` is the new body when the body was delivered
uncompressed, and otherwise the new body is the compressed form of `t` (which
decompresses to `t`). -/
theorem rewriteJs_no_occurrence (G : GzipLib) (customHost : Str) (resp out : Response)
    (hov : overlaps apiHost customHost = false)
    (hok : rewriteJs G customHost resp = (out, none)) :
    customHost ≠ [] ∧
      ∃ t : Str, ¬ apiHost <:+: t ∧
        ((resp.Uncompressed = true ∧ out.Body.data = t) ∨
          (resp.Uncompressed = false ∧ G.Write t = .ok out.Body.data ∧
            (G.Lawful → G.Decompresses out.Body.data t))) := by
  refine ⟨?_, ?_⟩
  · intro hempty
    exact (overlaps_false apiHost customHost hov).2.1 ⟨[], apiHost, by rw [hempty]; rfl⟩
  · rcases rewriteJs_outcome G customHost resp with
      ⟨e, _, _, hrun⟩ | ⟨e, _, hrun⟩ | ⟨c, e, _, _, hrun⟩ | ⟨c, e, _, _, _, _, hrun⟩ |
      ⟨c, z, _, _, hz, hrun⟩
    · rw [hrun] at hok; exact absurd (congrArg Prod.snd hok) (by simp)
    · rw [hrun] at hok; exact absurd (congrArg Prod.snd hok) (by simp)
    · rw [hrun] at hok; exact absurd (congrArg Prod.snd hok) (by simp)
    · rw [hrun] at hok; exact absurd (congrArg Prod.snd hok) (by simp)
    · rw [hrun] at hok
      have ho : out = withNewBody resp z := (congrArg Prod.fst hok).symm
      subst ho
      refine ⟨bytesReplace c apiHost customHost (-1),
        bytesReplace_no_occurrence apiHost customHost (by decide) hov c, ?_⟩
      rcases hz with ⟨hu, hz⟩ | ⟨hu, hw⟩
      · exact Or.inl ⟨hu, hz⟩
      · refine Or.inr ⟨hu, hw, fun hG => ?_⟩
        obtain ⟨z2, h1, h2, h3⟩ := hG (bytesReplace c apiHost customHost (-1))
        rw [hw] at h1
        have e : z = z2 := Except.ok.inj h1
        subst e
        exact ⟨h2, h3⟩

/-- The witness of C12 (amended): the replacement host `proxy.example.com` does
not overlap `api.segment.io`, and the rewritten script contains no occurrence of
`api.segment.io`. -/
theorem rewriteJs_no_occurrence_witness :
    overlaps apiHost sampleHost = false ∧
      rewriteJs frameGzip sampleHost (cdnResponse sampleScript true)
        = ((rewriteJs frameGzip sampleHost (cdnResponse sampleScript true)).1, none) ∧
      ∃ t : Str, ¬ apiHost <:+: t ∧
        (((cdnResponse sampleScript true).Uncompressed = true ∧
            (rewriteJs frameGzip sampleHost (cdnResponse sampleScript true)).1.Body.data = t) ∨
          ((cdnResponse sampleScript true).Uncompressed = false ∧
            frameGzip.Write t
              = .ok (rewriteJs frameGzip sampleHost (cdnResponse sampleScript true)).1.Body.data ∧
            (frameGzip.Lawful → frameGzip.Decompresses
              (rewriteJs frameGzip sampleHost (cdnResponse sampleScript true)).1.Body.data t))) :=
  ⟨by decide, rfl,
    (rewriteJs_no_occurrence frameGzip sampleHost (cdnResponse sampleScript true) _
      (by decide) rfl).2⟩

end SegmentProxy
